import Mathlib

/-!
# Verification of the `lego` regular-expression algebra

This file embeds the data model and the operations of `lego.py` (the
greenery term algebra: charclass / multiplier / mult / conc / pattern)
into Lean and settles the specification claims about them.

Conventions of the embedding:
* Python `None` standing for infinity in a multiplier bound is `Option.none`.
* A Python `frozenset` of characters is a sorted duplicate-free `List Char`;
  the smart constructor `ccmkChars` establishes that canonical form, and all
  set operations preserve it, so structural equality of canonical values
  coincides with Python's set equality.
* A Python `frozenset` of concs (inside `pattern`) is a canonically sorted
  duplicate-free `List Term` built by the smart constructor `patmk`.
* A Python method that can raise returns an `Option` (or a dedicated result
  type); `none` is the raised exception.
-/

/-! ## Multipliers (`multiplier`) -/

/-- A multiplier: a `min` and a `max`, with `none` standing for infinity,
mirroring `multiplier.__init__`'s stored `min`/`max`. -/
structure Mplier where
  mn : Option Nat
  mx : Option Nat
deriving DecidableEq, Repr

/-- The validity enforced by `multiplier.__init__`: a finite `min` needs
`min ≤ max` when `max` is finite, and an infinite `min` forces an infinite
`max`. -/
def Mplier.wf : Mplier → Prop
  | ⟨none, none⟩ => True
  | ⟨none, some _⟩ => False
  | ⟨some _, none⟩ => True
  | ⟨some a, some b⟩ => a ≤ b

instance : DecidablePred Mplier.wf := by
  intro m
  rcases m with ⟨_ | a, _ | b⟩ <;> simp [Mplier.wf] <;> infer_instance

/-- `multiplier.mandatory`: equal to the stored `min`. -/
def mandatoryV (m : Mplier) : Option Nat := m.mn

/-- `multiplier.optional`: `max - min` for finite bounds, infinite when `max`
is infinite.  (`min = none, max = some _` cannot be constructed in the source;
we return `none` there.) -/
def optionalV (m : Mplier) : Option Nat :=
  match m.mn, m.mx with
  | _, none => none
  | none, some _ => none
  | some a, some b => some (b - a)

def zeroM : Mplier := ⟨some 0, some 0⟩
def qmM : Mplier := ⟨some 0, some 1⟩
def oneM : Mplier := ⟨some 1, some 1⟩
def starM : Mplier := ⟨some 0, none⟩
def plusM : Mplier := ⟨some 1, none⟩
def infM : Mplier := ⟨none, none⟩

/-- Componentwise product with `none` (infinity) absorbing, as in
`multiplier.__mul__` (`self.min is None or other.min is None` gives `None`). -/
def nmulO (a b : Option Nat) : Option Nat :=
  match a, b with
  | none, _ => none
  | _, none => none
  | some x, some y => some (x * y)

/-- Componentwise sum with `none` (infinity) absorbing, as in
`multiplier.__add__`. -/
def naddO (a b : Option Nat) : Option Nat :=
  match a, b with
  | none, _ => none
  | _, none => none
  | some x, some y => some (x + y)

/-- Minimum treating `none` as larger than every finite value, the nested
`if`s of `multiplier.__and__` on one component. -/
def nminO (a b : Option Nat) : Option Nat :=
  match a, b with
  | none, none => none
  | none, some y => some y
  | some x, none => some x
  | some x, some y => some (min x y)

/-- `multiplier.__mul__`. -/
def mulM (a b : Mplier) : Mplier := ⟨nmulO a.mn b.mn, nmulO a.mx b.mx⟩

/-- `multiplier.__add__`. -/
def addM (a b : Mplier) : Mplier := ⟨naddO a.mn b.mn, naddO a.mx b.mx⟩

/-- The validation done by `multiplier.__init__` when handed possibly
negative integers: `min` must be a non-negative integer unless infinite,
`max` must be at least `min`, and an infinite `min` demands an infinite
`max`.  Returns `none` where the Python constructor raises. -/
def mkMultiplier (mn mx : Option Int) : Option Mplier :=
  match mn with
  | none =>
    match mx with
    | none => some ⟨none, none⟩
    | some _ => none
  | some m =>
    if m < 0 then none
    else
      match mx with
      | none => some ⟨some m.toNat, none⟩
      | some x => if x < m then none else some ⟨some m.toNat, some x.toNat⟩

/-- `multiplier.__sub__`: subtract in the `(mandatory, optional)` view
(`None - None = 0`, `None - n = None`, `n - None` raises), then rebuild a
`(min, max)` pair through the constructor.  `none` is a raised exception. -/
def subM (a b : Mplier) : Option Mplier :=
  let nm : Option (Option Int) :=
    match mandatoryV b with
    | none =>
      match mandatoryV a with
      | none => some (some 0)
      | some _ => none
    | some bm =>
      match mandatoryV a with
      | none => some none
      | some am => some (some ((am : Int) - (bm : Int)))
  let no : Option (Option Int) :=
    match optionalV b with
    | none =>
      match optionalV a with
      | none => some (some 0)
      | some _ => none
    | some bo =>
      match optionalV a with
      | none => some none
      | some ao => some (some ((ao : Int) - (bo : Int)))
  match nm, no with
  | some newMand, some newOpt =>
    match newMand with
    | none =>
      match newOpt with
      | none => mkMultiplier none none
      | some _ => none
    | some m =>
      match newOpt with
      | none => mkMultiplier (some m) none
      | some o => mkMultiplier (some m) (some (m + o))
  | _, _ => none

/-- `multiplier.__and__`: componentwise minimum in the `(mandatory, optional)`
view, then rebuild `(min, max)`.  The `commonMandatory is None` with finite
`commonOptional` branch raises in the source; it is `none` here.  The
constructor's checks always pass on the non-raising branches (the bounds are
natural numbers with `max = mand + opt ≥ mand`), so they are elided. -/
def andMp (a b : Mplier) : Option Mplier :=
  match nminO (mandatoryV a) (mandatoryV b) with
  | none =>
    match nminO (optionalV a) (optionalV b) with
    | none => some ⟨none, none⟩
    | some _ => none
  | some m =>
    match nminO (optionalV a) (optionalV b) with
    | none => some ⟨some m, none⟩
    | some o => some ⟨some m, some (m + o)⟩

/-! Spec-side multiplier definitions (for the refinement claims C3 and C7). -/

/-- One component of the spec's multiplier subtraction, on the
`(mandatory, optional)` view: `n − m` when both are finite (failing when the
difference leaves the multiplier domain, the source's "bad bounds"
construction error), `∞ − ∞ = 0`, `∞ − n = ∞`, and `n − ∞` a domain error.
Outer `none` is the failure. -/
def subViewSpec (x y : Option Nat) : Option (Option Nat) :=
  match y with
  | none =>
    match x with
    | none => some (some 0)
    | some _ => none
  | some yn =>
    match x with
    | none => some none
    | some xn => if yn ≤ xn then some (some (xn - yn)) else none

/-- The spec's reconstruction of `(min, max)` from a `(mandatory, optional)`
view, amended at one point: when the mandatory part is `∞` and the optional
part is finite (in particular `0`), the reconstruction is a domain error
rather than the spec's `min = max = ∞`.  Everywhere else: `min = mandatory`,
`max = mandatory + optional` with `∞` absorbing. -/
def reconstructSubAmended (mand opt : Option Nat) : Option Mplier :=
  match mand with
  | none =>
    match opt with
    | none => some ⟨none, none⟩
    | some _ => none
  | some m =>
    match opt with
    | none => some ⟨some m, none⟩
    | some o => some ⟨some m, some (m + o)⟩

/-- The amended specification of multiplier subtraction: componentwise view
subtraction (`subViewSpec`) followed by the amended reconstruction. -/
def subSpecA (a b : Mplier) : Option Mplier :=
  match subViewSpec (mandatoryV a) (mandatoryV b),
        subViewSpec (optionalV a) (optionalV b) with
  | some m, some o => reconstructSubAmended m o
  | _, _ => none

/-- The spec's reconstruction of `(min, max)` for intersection, exactly as
written: `mandatory = ∞` with `optional = 0` gives `min = max = ∞`; otherwise
`min = mandatory` and `max = mandatory + optional` with `∞` absorbing. -/
def reconstructSpec (mand opt : Option Nat) : Mplier :=
  if mand = none ∧ opt = some 0 then ⟨none, none⟩
  else ⟨mand,
    match mand, opt with
    | none, _ => none
    | _, none => none
    | some m, some o => some (m + o)⟩

/-! ## Character classes (`charclass`) -/

/-- A charclass: a finite set of symbols and a negation flag.  The set is a
sorted duplicate-free `List Char` (the canonical image of the Python
`frozenset`). -/
structure CC where
  chars : List Char
  negated : Bool
deriving DecidableEq, Repr

/-- Canonical form of a character set: duplicates removed, sorted. -/
def ccmkChars (l : List Char) : List Char :=
  List.insertionSort (· ≤ ·) l.dedup

/-- Set union of two canonical char lists (`frozenset.__or__`). -/
def charsUnion (a b : List Char) : List Char := ccmkChars (a ++ b)

/-- Set intersection of two canonical char lists (`frozenset.__and__`). -/
def charsInter (a b : List Char) : List Char := a.filter (fun c => c ∈ b)

/-- Set difference of two canonical char lists (`frozenset.__sub__`). -/
def charsDiff (a b : List Char) : List Char := a.filter (fun c => c ∉ b)

/-- `charclass.__invert__`: swap the negation flag. -/
def ccInvert (a : CC) : CC := ⟨a.chars, !a.negated⟩

/-- `charclass.__or__` restricted to two charclasses (the four-way negation
case split of the source). -/
def ccOr (a b : CC) : CC :=
  if a.negated then
    if b.negated then ⟨charsInter a.chars b.chars, true⟩
    else ⟨charsDiff a.chars b.chars, true⟩
  else
    if b.negated then ⟨charsDiff b.chars a.chars, true⟩
    else ⟨charsUnion a.chars b.chars, false⟩

/-- `charclass.__sub__`. -/
def ccSub (a b : CC) : CC :=
  if a.negated then
    if b.negated then ⟨charsDiff b.chars a.chars, false⟩
    else ⟨charsUnion a.chars b.chars, true⟩
  else
    if b.negated then ⟨charsInter a.chars b.chars, false⟩
    else ⟨charsDiff a.chars b.chars, false⟩

/-- `charclass.__and__` restricted to two charclasses. -/
def ccAnd (a b : CC) : CC :=
  if a.negated then
    if b.negated then ⟨charsUnion a.chars b.chars, true⟩
    else ⟨charsDiff b.chars a.chars, false⟩
  else
    if b.negated then ⟨charsDiff a.chars b.chars, false⟩
    else ⟨charsInter a.chars b.chars, false⟩

/-- `charclass.issubset`. -/
def ccIssubset (a b : CC) : Bool :=
  if a.negated then
    if b.negated then b.chars.all (fun c => c ∈ a.chars)
    else false
  else
    if b.negated then a.chars.all (fun c => c ∉ b.chars)
    else a.chars.all (fun c => c ∈ b.chars)

/-- The module constant `w`. -/
def wCC : CC :=
  ⟨ccmkChars "0123456789ABCDEFGHIJKLMNOPQRSTUVWXYZ_abcdefghijklmnopqrstuvwxyz".toList, false⟩

/-- The module constant `d`. -/
def dCC : CC := ⟨ccmkChars "0123456789".toList, false⟩

/-- The module constant `s`. -/
def sCC : CC := ⟨ccmkChars "\t\n\x0b\x0c\r ".toList, false⟩

/-- The module constant `W`. -/
def WCC : CC := ccInvert wCC

/-- The module constant `D`. -/
def DCC : CC := ccInvert dCC

/-- The module constant `S`. -/
def SCC : CC := ccInvert sCC

/-- The module constant `dot` (`~charclass()`). -/
def dotCC : CC := ⟨[], true⟩

/-- The `shorthand` table, in the source's insertion order. -/
def shorthandTable : List (CC × String) :=
  [(wCC, "\\w"), (dCC, "\\d"), (sCC, "\\s"),
   (WCC, "\\W"), (DCC, "\\D"), (SCC, "\\S"),
   (dotCC, ".")]

/-- Ordering on `ℕ ∪ {∞}` with `∞` larger than every finite value. -/
def leInf (x y : Option Nat) : Bool :=
  match x, y with
  | none, none => true
  | none, some _ => false
  | some _, none => true
  | some a, some b => a ≤ b

/-- Spec-side minimum: the smaller of the two, treating `∞` as larger than
every finite value. -/
def nminSpec (x y : Option Nat) : Option Nat := if leInf x y then x else y


/-! ## Terms

The four mutually recursive kinds are one inductive type; `lego.py`'s
`mult` may only hold a `charclass` or `pattern` multiplicand, `conc` holds
`mult`s and `pattern` holds `conc`s — that shape discipline (enforced by the
Python constructors) is the `wfT` predicate further down. -/

/-- A lego term: `tcc` is `charclass` (canonical sorted duplicate-free
character list), `tmult` is `mult`, `tconc` is `conc` (an ordered tuple) and
`tpat` is `pattern` (a `frozenset`, represented canonically: sorted by `tcmp`
and duplicate-free, as produced by `patmk`). -/
inductive Term where
  | tcc (chars : List Char) (negated : Bool)
  | tmult (mcand : Term) (mp : Mplier)
  | tconc (ms : List Term)
  | tpat (cs : List Term)

/-- `charclass()`: the empty charclass. -/
def emptyCC : Term := .tcc [] false

/-- `emptystring`: the empty conc. -/
def emptystr : Term := .tconc []

/-- `nothing`: the empty pattern. -/
def nothingP : Term := .tpat []

mutual
/-- Structural decidable equality for terms; Python's `==` on lego pieces is
structural equality of the canonical representations. -/
def decEqTerm : (t u : Term) → Decidable (t = u)
  | .tcc c1 n1, .tcc c2 n2 =>
    decidable_of_iff (c1 = c2 ∧ n1 = n2) (by simp)
  | .tmult x1 m1, .tmult x2 m2 =>
    have : Decidable (x1 = x2) := decEqTerm x1 x2
    decidable_of_iff (x1 = x2 ∧ m1 = m2) (by simp)
  | .tconc l1, .tconc l2 =>
    have : Decidable (l1 = l2) := decEqTermList l1 l2
    decidable_of_iff (l1 = l2) (by simp)
  | .tpat l1, .tpat l2 =>
    have : Decidable (l1 = l2) := decEqTermList l1 l2
    decidable_of_iff (l1 = l2) (by simp)
  | .tcc _ _, .tmult _ _ => isFalse (by intro h; cases h)
  | .tcc _ _, .tconc _ => isFalse (by intro h; cases h)
  | .tcc _ _, .tpat _ => isFalse (by intro h; cases h)
  | .tmult _ _, .tcc _ _ => isFalse (by intro h; cases h)
  | .tmult _ _, .tconc _ => isFalse (by intro h; cases h)
  | .tmult _ _, .tpat _ => isFalse (by intro h; cases h)
  | .tconc _, .tcc _ _ => isFalse (by intro h; cases h)
  | .tconc _, .tmult _ _ => isFalse (by intro h; cases h)
  | .tconc _, .tpat _ => isFalse (by intro h; cases h)
  | .tpat _, .tcc _ _ => isFalse (by intro h; cases h)
  | .tpat _, .tmult _ _ => isFalse (by intro h; cases h)
  | .tpat _, .tconc _ => isFalse (by intro h; cases h)
termination_by t _ => sizeOf t
def decEqTermList : (l1 l2 : List Term) → Decidable (l1 = l2)
  | [], [] => isTrue rfl
  | [], _ :: _ => isFalse (by intro h; cases h)
  | _ :: _, [] => isFalse (by intro h; cases h)
  | a :: as, b :: bs =>
    have : Decidable (a = b) := decEqTerm a b
    have : Decidable (as = bs) := decEqTermList as bs
    decidable_of_iff (a = b ∧ as = bs) (by simp)
termination_by l _ => sizeOf l
end

instance : DecidableEq Term := decEqTerm

/-! A linear order on terms.  This is a Lean-side device, not part of the
source: it fixes one canonical list representation for each Python
`frozenset` of concs, so that structural equality of canonical terms
coincides with Python's set-based equality. -/

/-- Three-way comparison from a linear order. -/
def cmpLin {α : Type} [LinearOrder α] (a b : α) : Ordering :=
  if a < b then .lt else if b < a then .gt else .eq

/-- Three-way comparison on `ℕ ∪ {∞}`-style options, `none` first. -/
def cmpONat : Option Nat → Option Nat → Ordering
  | none, none => .eq
  | none, some _ => .lt
  | some _, none => .gt
  | some a, some b => cmpLin a b

/-- Lexicographic comparison of character lists. -/
def cmpCharList : List Char → List Char → Ordering
  | [], [] => .eq
  | [], _ :: _ => .lt
  | _ :: _, [] => .gt
  | a :: as, b :: bs => (cmpLin a b).then (cmpCharList as bs)

/-- Comparison of multipliers. -/
def cmpMp (a b : Mplier) : Ordering := (cmpONat a.mn b.mn).then (cmpONat a.mx b.mx)

/-- Constructor rank of a term. -/
def trank : Term → Nat
  | .tcc _ _ => 0
  | .tmult _ _ => 1
  | .tconc _ => 2
  | .tpat _ => 3

mutual
/-- Total comparison of terms: by constructor rank, then by fields. -/
def tcmp (t u : Term) : Ordering := (cmpLin (trank t) (trank u)).then (tcmpS t u)
termination_by (sizeOf t, 1)
/-- Field comparison of two terms of the same constructor (`.eq` junk value
on mismatched constructors; `tcmp` has already ordered those by rank). -/
def tcmpS : Term → Term → Ordering
  | .tcc c1 n1, .tcc c2 n2 => (cmpCharList c1 c2).then (cmpLin n1 n2)
  | .tmult x1 m1, .tmult x2 m2 => (tcmp x1 x2).then (cmpMp m1 m2)
  | .tconc l1, .tconc l2 => tcmpL l1 l2
  | .tpat l1, .tpat l2 => tcmpL l1 l2
  | _, _ => .eq
termination_by t _ => (sizeOf t, 0)
/-- Lexicographic comparison of term lists. -/
def tcmpL : List Term → List Term → Ordering
  | [], [] => .eq
  | [], _ :: _ => .lt
  | _ :: _, [] => .gt
  | a :: as, b :: bs => (tcmp a b).then (tcmpL as bs)
termination_by l _ => (sizeOf l, 0)
end

/-- The canonical order on terms used to represent `frozenset`s of concs. -/
def leT (t u : Term) : Prop := tcmp t u ≠ .gt

instance : DecidableRel leT := fun t u => by unfold leT; infer_instance

/-- `pattern(*concs)`: the canonical representation of the `frozenset` of
the given concs — duplicates collapsed, sorted in the canonical order. -/
def patmk (cs : List Term) : Term := .tpat (List.insertionSort leT cs.dedup)

/-! ## The reducer

`reduce()` of each kind, modelled as a big-step relation `Reduces t r`:
"the Python call `t.reduce()` returns `r`".  Each rule is one `return`
statement of the source, carrying the negations of the guards of the earlier
branches of the same method; recursive `reduce()` calls are premises.  The
executable guard computations are transcribed below as plain functions. -/

/-- `c == emptystring` for a conc. -/
def isEmptyConc : Term → Bool
  | .tconc [] => true
  | _ => false

/-- `type(x) == pattern and emptystring in x.concs` (guard of the first
branch of `mult.reduce`). -/
def multHasEmptyAlt : Term → Bool
  | .tpat cs => cs.any isEmptyConc
  | _ => false

/-- The "bulk up" in `mult.reduce`: a mult becomes a conc and then a
pattern; a conc becomes a pattern; charclasses and patterns are unchanged. -/
def bulkPat (t : Term) : Term :=
  match t with
  | .tmult _ _ => patmk [Term.tconc [t]]
  | .tconc _ => patmk [t]
  | _ => t

/-- `m.multiplicand == charclass() and (m.multiplier.min is None or
m.multiplier.min > 0)` (the vacuous-mult test of `conc.reduce` and
`pattern.reduce`). -/
def vacuousMult : Term → Bool
  | .tmult (.tcc [] false) μ =>
    match μ.mn with
    | none => true
    | some k => decide (0 < k)
  | _ => false

/-- A conc containing a vacuous mult (`pattern.reduce`, first loop). -/
def concVacuousB : Term → Bool
  | .tconc ms => ms.any vacuousMult
  | _ => false

/-- The "bulk up" in `conc.reduce`: concs become patterns, then charclasses
and patterns become mults with multiplier `one`. -/
def bulkMult (t : Term) : Term :=
  match t with
  | .tconc _ => .tmult (patmk [t]) oneM
  | .tcc _ _ => .tmult t oneM
  | .tpat _ => .tmult t oneM
  | .tmult _ _ => t

/-- The "bulk up" in `pattern.reduce`: charclasses and patterns become mults
with multiplier `one`, then mults become concs. -/
def bulkConc (t : Term) : Term :=
  match t with
  | .tcc _ _ => .tconc [.tmult t oneM]
  | .tpat _ => .tconc [.tmult t oneM]
  | .tmult _ _ => .tconc [t]
  | .tconc _ => t

/-- The first adjacent equal-multiplicand squish of `conc.reduce`
(`mults[i].multiplicand == mults[i+1].multiplicand`, replaced by one mult
with the multipliers added). -/
def squishFirst : List Term → Option (List Term)
  | .tmult x μ :: .tmult y ν :: rest =>
    if x = y then some (.tmult x (addM μ ν) :: rest)
    else (squishFirst (.tmult y ν :: rest)).map (fun l => .tmult x μ :: l)
  | t :: rest => (squishFirst rest).map (fun l => t :: l)
  | [] => none

/-- The first singleton-pattern inlining of `conc.reduce` (a mult with
multiplier `one` whose multiplicand is a pattern of exactly one conc is
replaced by that conc's mults). -/
def spliceFirst : List Term → Option (List Term)
  | [] => none
  | t :: rest =>
    match t with
    | .tmult (.tpat [.tconc inner]) μ =>
      if μ = oneM then some (inner ++ rest)
      else (spliceFirst rest).map (fun l => t :: l)
    | _ => (spliceFirst rest).map (fun l => t :: l)

/-- A conc of the form `conc(mult(charclass, μ))`, yielding the multiplier
key and the charclass mult (the merge candidates of `pattern.reduce`). -/
def isSingleCCMult : Term → Option (Mplier × Term)
  | .tconc [.tmult (.tcc ch ng) μ] => some (μ, .tcc ch ng)
  | _ => none

/-- `charclass.__or__` on charclass terms (junk on other shapes). -/
def ccOrT : Term → Term → Term
  | .tcc c1 n1, .tcc c2 n2 =>
    let r := ccOr ⟨c1, n1⟩ ⟨c2, n2⟩
    .tcc r.chars r.negated
  | t, _ => t

/-- `merged[key] |= cc` on the insertion-ordered association list. -/
def updAssoc (l : List (Mplier × Term)) (k : Mplier) (cc : Term) :
    List (Mplier × Term) :=
  l.map (fun p => if p.1 = k then (p.1, ccOrT p.2 cc) else p)

/-- The grouping loop of the charclass-merge rule of `pattern.reduce`:
single-charclass-mult concs are grouped by multiplier (an insertion-ordered
dict), everything else is kept in `rest`; the flag records whether any
merge happened. -/
def ccMergeLoop : List Term → List (Mplier × Term) → List Term → Bool →
    List (Mplier × Term) × List Term × Bool
  | [], merged, rest, chg => (merged, rest, chg)
  | c :: cstail, merged, rest, chg =>
    match isSingleCCMult c with
    | some (k, cc) =>
      if (merged.find? (fun p => p.1 = k)).isSome then
        ccMergeLoop cstail (updAssoc merged k cc) rest true
      else
        ccMergeLoop cstail (merged ++ [(k, cc)]) rest chg
    | none => ccMergeLoop cstail merged (rest ++ [c]) chg

/-- The charclass-merge rule of `pattern.reduce`: `some` of the merged conc
list when at least one merge happened, `none` otherwise. -/
def ccMergeScan (cs : List Term) : Option (List Term) :=
  match ccMergeLoop cs [] [] false with
  | (merged, rest, chg) =>
    if chg then some (rest ++ merged.map (fun p => .tconc [.tmult p.2 p.1]))
    else none

/-- Result of a mult-level `&`/`-`: no common multiplicand (the caught
control signal), an uncaught exception, or a mult. -/
inductive MulOpRes where
  | noCommon
  | crash
  | ok (t : Term)

/-- `mult.__and__` (the second definition in the source, the one that is in
effect) on two mults. -/
def multAndT : Term → Term → MulOpRes
  | .tmult x μ, .tmult y ν =>
    if y = x then
      match andMp μ ν with
      | some m => .ok (.tmult x m)
      | none => .crash
    else .noCommon
  | _, _ => .crash

/-- `mult.__sub__` on two mults. -/
def multSubT : Term → Term → MulOpRes
  | .tmult x μ, .tmult y ν =>
    if y = x then
      match subM μ ν with
      | some m => .ok (.tmult x m)
      | none => .crash
    else .noCommon
  | _, _ => .crash

/-- Result of `pattern._multprefix` / `_multsuffix`: the expected failure
signal, an uncaught exception, or a common mult plus the leftover pattern. -/
inductive MPRes where
  | fail
  | crash
  | ok (common : Term) (leftovers : Term)

/-- The `commonMult &= c.mults[0]` fold of `_multprefix`, with the
`commonMult.multiplier == zero` check after every assignment. -/
def multPreFoldGo : Term → List Term → MulOpRes
  | common, [] => .ok common
  | common, c :: cstail =>
    match c with
    | .tconc [] => .noCommon
    | .tconc (m :: _) =>
      match multAndT common m with
      | .noCommon => .noCommon
      | .crash => .crash
      | .ok newCommon =>
        match newCommon with
        | .tmult _ μ =>
          if μ = zeroM then .noCommon else multPreFoldGo newCommon cstail
        | _ => .crash
    | _ => .crash

/-- The first iteration of the `_multprefix` fold (assignment plus zero
check), then the rest. -/
def multPreFold : List Term → MulOpRes
  | [] => .noCommon
  | c :: cstail =>
    match c with
    | .tconc [] => .noCommon
    | .tconc (m :: _) =>
      match m with
      | .tmult _ μ =>
        if μ = zeroM then .noCommon else multPreFoldGo m cstail
      | _ => .crash
    | _ => .crash

/-- The leftover construction of `_multprefix`: each conc's first mult minus
the common mult; a zero residue drops the mult entirely. -/
def multPreLeft : Term → List Term → Option (List Term)
  | _, [] => some []
  | common, c :: cstail =>
    match c with
    | .tconc (m :: ms) =>
      match multSubT m common with
      | .ok (.tmult x μ') =>
        (multPreLeft common cstail).map
          (fun l => (if μ' = zeroM then Term.tconc ms
                     else Term.tconc (.tmult x μ' :: ms)) :: l)
      | _ => none
    | _ => none

/-- `pattern._multprefix` on the conc list of a pattern. -/
def multPreT (cs : List Term) : MPRes :=
  match multPreFold cs with
  | .noCommon => .fail
  | .crash => .crash
  | .ok common =>
    match multPreLeft common cs with
    | none => .crash
    | some ls => .ok common (patmk ls)

/-- The `commonMult &= c.mults[-1]` fold of `_multsuffix`. -/
def multSufFoldGo : Term → List Term → MulOpRes
  | common, [] => .ok common
  | common, c :: cstail =>
    match c with
    | .tconc ms =>
      match ms.getLast? with
      | none => .noCommon
      | some m =>
        match multAndT common m with
        | .noCommon => .noCommon
        | .crash => .crash
        | .ok newCommon =>
          match newCommon with
          | .tmult _ μ =>
            if μ = zeroM then .noCommon else multSufFoldGo newCommon cstail
          | _ => .crash
    | _ => .crash

/-- The first iteration of the `_multsuffix` fold, then the rest. -/
def multSufFold : List Term → MulOpRes
  | [] => .noCommon
  | c :: cstail =>
    match c with
    | .tconc ms =>
      match ms.getLast? with
      | none => .noCommon
      | some m =>
        match m with
        | .tmult _ μ =>
          if μ = zeroM then .noCommon else multSufFoldGo m cstail
        | _ => .crash
    | _ => .crash

/-- The leftover construction of `_multsuffix`: each conc's last mult minus
the common mult. -/
def multSufLeft : Term → List Term → Option (List Term)
  | _, [] => some []
  | common, c :: cstail =>
    match c with
    | .tconc ms =>
      match ms.getLast? with
      | none => none
      | some m =>
        match multSubT m common with
        | .ok (.tmult x μ') =>
          (multSufLeft common cstail).map
            (fun l => (if μ' = zeroM then Term.tconc ms.dropLast
                       else Term.tconc (ms.dropLast ++ [.tmult x μ'])) :: l)
        | _ => none
    | _ => none

/-- `pattern._multsuffix` on the conc list of a pattern. -/
def multSufT (cs : List Term) : MPRes :=
  match multSufFold cs with
  | .noCommon => .fail
  | .crash => .crash
  | .ok common =>
    match multSufLeft common cs with
    | none => .crash
    | some ls => .ok common (patmk ls)

/-- Result of `pattern._concprefix`: the accumulated common prefix (a list of
mults) and the leftover pattern, or an uncaught exception.  (`_concprefix`
itself never signals failure: an immediately failing `_multprefix` just
yields the empty prefix.) -/
inductive CPRes where
  | crash
  | res (pre : List Term) (leftovers : Term)

/-- Result of `pattern._concsuffix`: leftovers and the common suffix. -/
inductive CSRes where
  | crash
  | res (leftovers : Term) (suf : List Term)

/-- The `_concprefix` accumulation loop with explicit fuel.  The source's
loop terminates because every successful `_multprefix` round consumes
multiplier weight or drops a mult; the fuel passed by `concPreT` is a crude
upper bound for that. -/
def concPreGo : Nat → Term → List Term → CPRes
  | 0, _, _ => .crash
  | n + 1, .tpat cs, acc =>
    match multPreT cs with
    | .fail => .res acc (.tpat cs)
    | .crash => .crash
    | .ok common leftovers => concPreGo n leftovers (acc ++ [common])
  | _ + 1, _, _ => .crash

/-- The `_concsuffix` accumulation loop with explicit fuel (the common mults
are collected back-to-front with `insert(0, ...)`). -/
def concSufGo : Nat → Term → List Term → CSRes
  | 0, _, _ => .crash
  | n + 1, .tpat cs, acc =>
    match multSufT cs with
    | .fail => .res (.tpat cs) acc
    | .crash => .crash
    | .ok common leftovers => concSufGo n leftovers (common :: acc)
  | _ + 1, _, _ => .crash

/-- Weight of a multiplier bound for the factoring fuel. -/
def boundWeight : Option Nat → Nat
  | none => 1
  | some k => k + 1

/-- Weight of a conc's top-level mults for the factoring fuel. -/
def concWeight : Term → Nat
  | .tconc ms =>
    ms.foldl
      (fun a m =>
        a + (match m with
             | .tmult _ μ => boundWeight μ.mn + boundWeight μ.mx + 1
             | _ => 1)) 1
  | _ => 1

/-- A generous fuel bound for the factoring loops. -/
def facFuel (cs : List Term) : Nat :=
  (cs.foldl (fun a c => a + concWeight c) 2 + 2) *
    (cs.foldl (fun a c => a + concWeight c) 2 + 2)

/-- `pattern._concprefix`. -/
def concPreT (cs : List Term) : CPRes := concPreGo (facFuel cs) (.tpat cs) []

/-- `pattern._concsuffix`. -/
def concSufT (cs : List Term) : CSRes := concSufGo (facFuel cs) (.tpat cs) []

/-- Big-step semantics of `reduce()`: `Reduces t r` states that the Python
call `t.reduce()` returns `r`.  One constructor per `return` statement of
the source, in source order; every constructor after the first `return` of a
method carries the negated guards of the earlier branches, so at most one
constructor applies to a term (the relation is the graph of the Python
function wherever the call terminates). -/
inductive Reduces : Term → Term → Prop where
  /-- `charclass.reduce`: charclasses cannot be reduced. -/
  | ccSelf (chars : List Char) (negated : Bool) :
      Reduces (.tcc chars negated) (.tcc chars negated)
  /-- `mult.reduce`, branch 1: a pattern multiplicand containing the empty
  conc has its optionality pulled into the multiplier
  (`(A|B|) * μ → (A|B) * (μ * qm)`, reduced again). -/
  | multEmptyAlt {cs : List Term} {μ : Mplier} {r : Term}
      (hin : cs.any isEmptyConc = true)
      (hrec : Reduces
        (.tmult (patmk (cs.filter (fun c => !isEmptyConc c))) (mulM μ qmM)) r) :
      Reduces (.tmult (.tpat cs) μ) r
  /-- `mult.reduce`, branch 2: multiplier `zero` reduces to the empty
  charclass. -/
  | multZero {x : Term} {r : Term}
      (h1 : multHasEmptyAlt x = false)
      (hrec : Reduces emptyCC r) :
      Reduces (.tmult x zeroM) r
  /-- `mult.reduce`, branch 3: multiplicand `nothing` with `min = 0` reduces
  to the empty string. -/
  | multNothingEps {μ : Mplier} {r : Term}
      (h2 : μ ≠ zeroM) (hmn : μ.mn = some 0)
      (hrec : Reduces emptystr r) :
      Reduces (.tmult nothingP μ) r
  /-- `mult.reduce`, branch 3: multiplicand `nothing` with `min ≠ 0` reduces
  to the empty charclass. -/
  | multNothingCC {μ : Mplier} {r : Term}
      (h2 : μ ≠ zeroM) (hmn : μ.mn ≠ some 0)
      (hrec : Reduces emptyCC r) :
      Reduces (.tmult nothingP μ) r
  /-- `mult.reduce`, branch 4: multiplier `one` reduces to the reduced
  multiplicand. -/
  | multOne {x : Term} {r : Term}
      (h1 : multHasEmptyAlt x = false) (h3 : x ≠ nothingP)
      (hrec : Reduces x r) :
      Reduces (.tmult x oneM) r
  /-- `mult.reduce`, branch 5: the multiplicand reduced (and bulked up to a
  pattern) to something new; rebuild and reduce again. -/
  | multChild {x x' : Term} {μ : Mplier} {r : Term}
      (h1 : multHasEmptyAlt x = false) (h2 : μ ≠ zeroM) (h3 : x ≠ nothingP)
      (h4 : μ ≠ oneM)
      (hx : Reduces x x') (hch : bulkPat x' ≠ x)
      (hrec : Reduces (.tmult (bulkPat x') μ) r) :
      Reduces (.tmult x μ) r
  /-- `mult.reduce`, branch 6: a pattern multiplicand of exactly one conc of
  exactly one mult `(y, ν)` collapses to `(y, ν * μ)`, reduced again. -/
  | multSingleton {y : Term} {ν μ : Mplier} {x' : Term} {r : Term}
      (h2 : μ ≠ zeroM) (h4 : μ ≠ oneM)
      (hx : Reduces (.tpat [.tconc [.tmult y ν]]) x')
      (hch : bulkPat x' = .tpat [.tconc [.tmult y ν]])
      (hrec : Reduces (.tmult y (mulM ν μ)) r) :
      Reduces (.tmult (.tpat [.tconc [.tmult y ν]]) μ) r
  /-- `mult.reduce`, fall-through: no branch applied, return `self`. -/
  | multSelf {x x' : Term} {μ : Mplier}
      (h1 : multHasEmptyAlt x = false) (h2 : μ ≠ zeroM) (h3 : x ≠ nothingP)
      (h4 : μ ≠ oneM)
      (hx : Reduces x x') (hch : bulkPat x' = x)
      (h6 : ∀ y ν, x ≠ .tpat [.tconc [.tmult y ν]]) :
      Reduces (.tmult x μ) (.tmult x μ)
  /-- `conc.reduce`, branch 1: a mult with empty-charclass multiplicand and
  nonzero mandatory multiplier makes the whole conc vacuous. -/
  | concVacuous {ms : List Term} {r : Term}
      (hv : ms.any vacuousMult = true)
      (hrec : Reduces emptyCC r) :
      Reduces (.tconc ms) r
  /-- `conc.reduce`, branch 2: a single mult reduces to that mult. -/
  | concSingle {m : Term} {r : Term}
      (hv : vacuousMult m = false)
      (hrec : Reduces m r) :
      Reduces (.tconc [m]) r
  /-- `conc.reduce`, branch 3: some child reduced (and bulked back to a
  mult) to something new; rebuild and reduce again. -/
  | concChild {ms rs : List Term} {r : Term}
      (hv : ms.any vacuousMult = false) (hlen : ms.length ≠ 1)
      (hlen2 : ms.length = rs.length)
      (hkids : ∀ i : Fin ms.length, Reduces (ms.get i) (rs.get (Fin.cast hlen2 i)))
      (hch : rs.map bulkMult ≠ ms)
      (hrec : Reduces (.tconc (rs.map bulkMult)) r) :
      Reduces (.tconc ms) r
  /-- `conc.reduce`, branch 4: squish the first adjacent pair of mults with
  equal multiplicands. -/
  | concSquish {ms rs ms2 : List Term} {r : Term}
      (hv : ms.any vacuousMult = false) (hlen : ms.length ≠ 1)
      (hlen2 : ms.length = rs.length)
      (hkids : ∀ i : Fin ms.length, Reduces (ms.get i) (rs.get (Fin.cast hlen2 i)))
      (hch : rs.map bulkMult = ms)
      (hsq : squishFirst ms = some ms2)
      (hrec : Reduces (.tconc ms2) r) :
      Reduces (.tconc ms) r
  /-- `conc.reduce`, branch 5: splice the first singleton-pattern mult with
  multiplier `one` in place. -/
  | concSplice {ms rs ms3 : List Term} {r : Term}
      (hv : ms.any vacuousMult = false) (hlen : ms.length ≠ 1)
      (hlen2 : ms.length = rs.length)
      (hkids : ∀ i : Fin ms.length, Reduces (ms.get i) (rs.get (Fin.cast hlen2 i)))
      (hch : rs.map bulkMult = ms)
      (hsq : squishFirst ms = none)
      (hsp : spliceFirst ms = some ms3)
      (hrec : Reduces (.tconc ms3) r) :
      Reduces (.tconc ms) r
  /-- `conc.reduce`, fall-through: return `self`. -/
  | concSelf {ms rs : List Term}
      (hv : ms.any vacuousMult = false) (hlen : ms.length ≠ 1)
      (hlen2 : ms.length = rs.length)
      (hkids : ∀ i : Fin ms.length, Reduces (ms.get i) (rs.get (Fin.cast hlen2 i)))
      (hch : rs.map bulkMult = ms)
      (hsq : squishFirst ms = none)
      (hsp : spliceFirst ms = none) :
      Reduces (.tconc ms) (.tconc ms)
  /-- `pattern.reduce`, branch 1: drop the first conc that can never match
  (contains a vacuous mult), reduce the rest. -/
  | patVacuous {cs : List Term} {c : Term} {r : Term}
      (hf : cs.find? concVacuousB = some c)
      (hrec : Reduces (patmk (cs.erase c)) r) :
      Reduces (.tpat cs) r
  /-- `pattern.reduce`, branch 2: a single conc reduces to that conc. -/
  | patSingle {c : Term} {r : Term}
      (hf : concVacuousB c = false)
      (hrec : Reduces c r) :
      Reduces (.tpat [c]) r
  /-- `pattern.reduce`, branch 3: some child reduced (and bulked back to a
  conc) to something new; rebuild the frozenset and reduce again. -/
  | patChild {cs rs : List Term} {r : Term}
      (hf : cs.find? concVacuousB = none) (hlen : cs.length ≠ 1)
      (hlen2 : cs.length = rs.length)
      (hkids : ∀ i : Fin cs.length, Reduces (cs.get i) (rs.get (Fin.cast hlen2 i)))
      (hch : patmk (rs.map bulkConc) ≠ .tpat cs)
      (hrec : Reduces (patmk (rs.map bulkConc)) r) :
      Reduces (.tpat cs) r
  /-- `pattern.reduce`, branch 4: merge single-charclass-mult branches with
  identical multipliers (only when at least one merge happened). -/
  | patMerge {cs rs cs2 : List Term} {r : Term}
      (hf : cs.find? concVacuousB = none) (hlen : cs.length ≠ 1)
      (hlen2 : cs.length = rs.length)
      (hkids : ∀ i : Fin cs.length, Reduces (cs.get i) (rs.get (Fin.cast hlen2 i)))
      (hch : patmk (rs.map bulkConc) = .tpat cs)
      (hm : ccMergeScan cs = some cs2)
      (hrec : Reduces (patmk cs2) r) :
      Reduces (.tpat cs) r
  /-- `pattern.reduce`, branch 5: factor out a non-empty common conc prefix. -/
  | patPre {cs rs : List Term} {p : Term} {ps : List Term} {L r : Term}
      (hf : cs.find? concVacuousB = none) (hlen : cs.length ≠ 1)
      (hlen2 : cs.length = rs.length)
      (hkids : ∀ i : Fin cs.length, Reduces (cs.get i) (rs.get (Fin.cast hlen2 i)))
      (hch : patmk (rs.map bulkConc) = .tpat cs)
      (hm : ccMergeScan cs = none)
      (hp : concPreT cs = .res (p :: ps) L)
      (hrec : Reduces (.tconc ((p :: ps) ++ [.tmult L oneM])) r) :
      Reduces (.tpat cs) r
  /-- `pattern.reduce`, branch 6: factor out a non-empty common conc suffix. -/
  | patSuf {cs rs : List Term} {L1 : Term} {s : Term} {ss : List Term} {L2 r : Term}
      (hf : cs.find? concVacuousB = none) (hlen : cs.length ≠ 1)
      (hlen2 : cs.length = rs.length)
      (hkids : ∀ i : Fin cs.length, Reduces (cs.get i) (rs.get (Fin.cast hlen2 i)))
      (hch : patmk (rs.map bulkConc) = .tpat cs)
      (hm : ccMergeScan cs = none)
      (hp : concPreT cs = .res [] L1)
      (hs : concSufT cs = .res L2 (s :: ss))
      (hrec : Reduces (.tconc (.tmult L2 oneM :: (s :: ss))) r) :
      Reduces (.tpat cs) r
  /-- `pattern.reduce`, fall-through: return `self`. -/
  | patSelf {cs rs : List Term} {L1 L2 : Term}
      (hf : cs.find? concVacuousB = none) (hlen : cs.length ≠ 1)
      (hlen2 : cs.length = rs.length)
      (hkids : ∀ i : Fin cs.length, Reduces (cs.get i) (rs.get (Fin.cast hlen2 i)))
      (hch : patmk (rs.map bulkConc) = .tpat cs)
      (hm : ccMergeScan cs = none)
      (hp : concPreT cs = .res [] L1)
      (hs : concSufT cs = .res L2 []) :
      Reduces (.tpat cs) (.tpat cs)

mutual
/-- Executable `reduce()` with fuel, mirroring `Reduces` branch for branch
(`none` = out of fuel or a Python crash). -/
def reduceF : Nat → Term → Option Term
  | 0, _ => none
  | n + 1, t =>
    match t with
    | .tcc c ng => some (.tcc c ng)
    | .tmult x μ =>
      if multHasEmptyAlt x then
        match x with
        | .tpat cs =>
          reduceF n (.tmult (patmk (cs.filter (fun c => !isEmptyConc c))) (mulM μ qmM))
        | _ => none
      else if μ = zeroM then reduceF n emptyCC
      else if x = nothingP then
        if μ.mn = some 0 then reduceF n emptystr else reduceF n emptyCC
      else if μ = oneM then reduceF n x
      else
        match reduceF n x with
        | none => none
        | some x' =>
          if bulkPat x' ≠ x then reduceF n (.tmult (bulkPat x') μ)
          else
            match x with
            | .tpat [.tconc [.tmult y ν]] => reduceF n (.tmult y (mulM ν μ))
            | _ => some (.tmult x μ)
    | .tconc ms =>
      if ms.any vacuousMult then reduceF n emptyCC
      else
        match ms with
        | [m] => reduceF n m
        | _ =>
          match reduceListF n ms with
          | none => none
          | some rs =>
            if rs.map bulkMult ≠ ms then reduceF n (.tconc (rs.map bulkMult))
            else
              match squishFirst ms with
              | some ms2 => reduceF n (.tconc ms2)
              | none =>
                match spliceFirst ms with
                | some ms3 => reduceF n (.tconc ms3)
                | none => some (.tconc ms)
    | .tpat cs =>
      match cs.find? concVacuousB with
      | some c => reduceF n (patmk (cs.erase c))
      | none => reducePatF n cs
/-- The branches of `pattern.reduce` below the vacuous-conc removal. -/
def reducePatF : Nat → List Term → Option Term
  | 0, _ => none
  | n + 1, cs =>
    match cs with
    | [c] => reduceF n c
    | _ =>
      match reduceListF n cs with
      | none => none
      | some rs =>
        if patmk (rs.map bulkConc) ≠ .tpat cs then
          reduceF n (patmk (rs.map bulkConc))
        else
          match ccMergeScan cs with
          | some cs2 => reduceF n (patmk cs2)
          | none =>
            match concPreT cs with
            | .crash => none
            | .res (p :: ps) L =>
              reduceF n (.tconc ((p :: ps) ++ [.tmult L oneM]))
            | .res [] _ =>
              match concSufT cs with
              | .crash => none
              | .res L2 (s :: ss) =>
                reduceF n (.tconc (.tmult L2 oneM :: (s :: ss)))
              | .res _ [] => some (.tpat cs)
/-- Children of a conc/pattern reduced one by one. -/
def reduceListF : Nat → List Term → Option (List Term)
  | _, [] => some []
  | 0, _ :: _ => none
  | n + 1, m :: ms =>
    match reduceF n m, reduceListF n ms with
    | some r, some rs => some (r :: rs)
    | _, _ => none
end

/-- Hash of a multiplier (`multiplier.__hash__` hashes the `(min, max)`
tuple; any structural hash consistent with equality models it). -/
def mphash (m : Mplier) : Nat :=
  (match m.mn with | none => 0 | some k => k + 1) * 65599 +
  (match m.mx with | none => 0 | some k => k + 1)

mutual
/-- A structural hash for terms, modelling the source's `__hash__` methods
(each kind hashes its contents; consistency with equality is what the data
model requires). -/
def thash : Term → Nat
  | .tcc cs ng =>
    2 + 31 * cs.foldl (fun a c => 31 * a + c.toNat) 7 + (if ng then 1 else 0)
  | .tmult x m => 3 + 31 * thash x + mphash m
  | .tconc ms => 5 + 31 * thashL ms
  | .tpat l => 11 + 37 * thashL l
termination_by t => sizeOf t
/-- Hash of a term list. -/
def thashL : List Term → Nat
  | [] => 1
  | a :: as => 31 * thash a + 17 * thashL as + 13
termination_by l => sizeOf l
end

/-! ## Rendering (`regex()`) -/

/-- The `escapes` table, in source order. -/
def escapesTable : List (Char × String) :=
  [('\t', "\\t"), ('\n', "\\n"), ('\x0b', "\\v"), ('\x0c', "\\f"), ('\r', "\\r")]

/-- `classSpecial`: characters special inside square brackets. -/
def classSpecialL : List Char := "\\[]^-".toList

/-- `allSpecial`: characters special outside square brackets. -/
def allSpecialL : List Char := "\\[]|().?*+\x7b\x7d".toList

/-- `allowableRanges`. -/
def allowableRangesL : List String :=
  ["ABCDEFGHIJKLMNOPQRSTUVWXYZ", "abcdefghijklmnopqrstuvwxyz", "0123456789"]

/-- `escapeChar` inside `charclass.escape`. -/
def escapeClassChar (c : Char) : String :=
  if c ∈ classSpecialL then "\\" ++ c.toString
  else
    match escapesTable.find? (fun p => p.1 = c) with
    | some p => p.2
    | none => c.toString

/-- `recordRange` inside `charclass.escape`: a run of at most three
characters is emitted literally, a longer one as `first-last`. -/
def recordRange : List Char → String
  | [] => ""
  | c0 :: rest =>
    if (c0 :: rest).length ≤ 3 then String.join ((c0 :: rest).map escapeClassChar)
    else escapeClassChar c0 ++ "-" ++ escapeClassChar ((c0 :: rest).getLast (by simp))

/-- The run-detection loop of `charclass.escape` over the sorted characters:
a character extends the current run only if it sits in an allowable range
directly after the run's last character. -/
def escapeLoop : List Char → List Char → String → String
  | [], cur, out => out ++ recordRange cur
  | c :: rest, cur, out =>
    match cur with
    | [] => escapeLoop rest [c] out
    | _ :: _ =>
      match allowableRangesL.find? (fun r => c ∈ r.toList) with
      | none => escapeLoop rest [c] (out ++ recordRange cur)
      | some sr =>
        let i := sr.toList.indexOf c
        if i = 0 ∨ sr.toList[i - 1]? ≠ cur.getLast? then
          escapeLoop rest [c] (out ++ recordRange cur)
        else escapeLoop rest (cur ++ [c]) out

/-- `charclass.escape` (the later, overriding definition in the source). -/
def ccEscape (chars : List Char) : String :=
  escapeLoop (List.insertionSort (· ≤ ·) chars) [] ""

/-- `self in shorthand.keys()` lookup. -/
def lookupShorthand (c : CC) : Option String :=
  (shorthandTable.find? (fun p => p.1 = c)).map (fun p => p.2)

/-- `charclass.regex`: shorthand, else fail on the empty class, else
negated bracket form, else a single (escaped) character, else bracket
form.  `none` is the `NoRegexException`. -/
def ccRegex (chars : List Char) (ng : Bool) : Option String :=
  match lookupShorthand ⟨chars, ng⟩ with
  | some s => some s
  | none =>
    if chars.length < 1 then none
    else if ng then some ("[^" ++ ccEscape chars ++ "]")
    else
      match chars with
      | [c] =>
        match escapesTable.find? (fun p => p.1 = c) with
        | some p => some p.2
        | none =>
          if c ∈ allSpecialL then some ("\\" ++ c.toString)
          else some c.toString
      | _ => some ("[" ++ ccEscape chars ++ "]")

/-- The `symbolic` table, in source order. -/
def symbolicTable : List (Mplier × String) :=
  [(qmM, "?"), (oneM, ""), (starM, "*"), (plusM, "+")]

/-- `multiplier.regex`: fails on `max = 0` or `min = ∞`, else symbolic
form, else one of the braced forms. -/
def mpRegex (m : Mplier) : Option String :=
  if m.mx = some 0 ∨ m.mn = none then none
  else
    match symbolicTable.find? (fun p => p.1 = m) with
    | some p => some p.2
    | none =>
      match m.mx with
      | none => some ("\x7b" ++ toString (m.mn.getD 0) ++ ",\x7d")
      | some mx =>
        match m.mn with
        | some mn =>
          if mn = mx then some ("\x7b" ++ toString mn ++ "\x7d")
          else some ("\x7b" ++ toString mn ++ "," ++ toString mx ++ "\x7d")
        | none => none

mutual
/-- A computable size function for terms (used as default fuel). -/
def tsizeT : Term → Nat
  | .tcc _ _ => 1
  | .tmult x _ => 1 + tsizeT x
  | .tconc ms => 1 + tsizeLT ms
  | .tpat cs => 1 + tsizeLT cs
termination_by t => sizeOf t
/-- Size of a term list. -/
def tsizeLT : List Term → Nat
  | [] => 0
  | t :: ts => 1 + tsizeT t + tsizeLT ts
termination_by l => sizeOf l
end

/-- `s * k` on strings (Python string repetition). -/
def repeatStr : Nat → String → String
  | 0, _ => ""
  | n + 1, s => s ++ repeatStr n s

mutual
/-- `regex()` of a term, with fuel: `mult.regex` renders the multiplicand
(parenthesized when it is a pattern), computes the multiplier's suffix, and
for `min == max` picks the repeated-literal form when
`len(output) * min <= len(output) + len(suffix)`; `conc.regex` joins its
mults; `pattern.regex` fails when empty and otherwise joins the sorted conc
renderings with `|`.  `none` is `NoRegexException` (or exhausted fuel). -/
def renderF : Nat → Term → Option String
  | 0, _ => none
  | _ + 1, .tcc cs ng => ccRegex cs ng
  | n + 1, .tmult x μ =>
    match
      (match x with
       | .tpat _ => (renderF n x).map (fun s => "(" ++ s ++ ")")
       | _ => renderF n x) with
    | none => none
    | some out =>
      match mpRegex μ with
      | none => none
      | some suffix =>
        match μ.mn, μ.mx with
        | some mn, some mx =>
          if mn = mx ∧ out.length * mn ≤ out.length + suffix.length then
            some (out ++ repeatStr (mn - 1) out)
          else some (out ++ suffix)
        | _, _ => some (out ++ suffix)
  | n + 1, .tconc ms => (renderListF n ms).map String.join
  | n + 1, .tpat cs =>
    if cs.length < 1 then none
    else
      (renderListF n cs).map
        (fun ss => String.intercalate "|" (List.insertionSort (· ≤ ·) ss))
/-- The renderings of a list of child terms. -/
def renderListF : Nat → List Term → Option (List String)
  | _, [] => some []
  | 0, _ :: _ => none
  | n + 1, t :: ts =>
    match renderF n t, renderListF n ts with
    | some s, some ss => some (s :: ss)
    | _, _ => none
end

/-- `regex()` of a term (`render` in the spec's vocabulary). -/
def render (t : Term) : Option String := renderF (tsizeT t + 1) t

mutual
/-- The term is or contains one of the three unprintable forms: an empty
non-negated charclass, a multiplier with `max = 0` or `min = ∞`, or an
empty pattern. -/
def containsU : Term → Bool
  | .tcc cs ng => cs.isEmpty && !ng
  | .tmult x μ => (decide (μ.mx = some 0) || decide (μ.mn = none)) || containsU x
  | .tconc ms => containsUL ms
  | .tpat cs => cs.isEmpty || containsUL cs
termination_by t => sizeOf t
/-- Any member of the list is or contains an unprintable form. -/
def containsUL : List Term → Bool
  | [] => false
  | t :: ts => containsU t || containsUL ts
termination_by l => sizeOf l
end

/-- The claim's description of `mult` rendering: render the multiplicand
(parenthesized when it is a pattern) and the multiplier's textual form; when
`min = max`, choose between the repeated-literal form and the braced form by
comparing rendered lengths, ties going to the repeated-literal form;
otherwise emit multiplicand followed by the multiplier's form. -/
def multRenderSpec (x : Term) (μ : Mplier) : Option String :=
  match
    (match x with
     | .tpat _ => (render x).map (fun s => "(" ++ s ++ ")")
     | _ => render x),
    mpRegex μ with
  | some base, some suffix =>
    match μ.mn, μ.mx with
    | some mn, some mx =>
      if mn = mx then
        if base.length * mn ≤ base.length + suffix.length then
          some (repeatStr mn base)
        else some (base ++ suffix)
      else some (base ++ suffix)
    | _, _ => some (base ++ suffix)
  | _, _ => none

/-! ## The parser

`lego.matchStatic` / `matchAny` and the per-kind `match` classmethods,
on the remaining input as a `List Char` (Python passes `(string, i)` and
only ever consumes forward).  Backtracking `MatchFailureException` is
`none`/`.fail`; exceptions the parser does not catch (only the multiplier
constructor can raise one, on `{n,m}` with `m < n`) are `.crash`. -/

/-- `matchStatic`: consume an expected literal prefix. -/
def matchStaticL : List Char → List Char → Option (List Char)
  | [], s => some s
  | c :: cs, d :: ds => if c = d then matchStaticL cs ds else none
  | _ :: _, [] => none

/-- `matchAny` with a collection: try each character in order. -/
def matchAnyOf (collection : List Char) (s : List Char) :
    Option (Char × List Char) :=
  collection.findSome? (fun ch => (matchStaticL [ch] s).map (fun rest => (ch, rest)))

/-- `charclass.matchInternalChar`: an escape, an escaped class-special
character, or any single character that is not class-special. -/
def matchInternalChar (s : List Char) : Option (Char × List Char) :=
  match escapesTable.findSome?
      (fun p => (matchStaticL p.2.toList s).map (fun rest => (p.1, rest))) with
  | some r => some r
  | none =>
    match classSpecialL.findSome?
        (fun c => (matchStaticL ['\\', c] s).map (fun rest => (c, rest))) with
    | some r => some r
    | none =>
      match s with
      | [] => none
      | c :: rest => if c ∈ classSpecialL then none else some (c, rest)

/-- `charclass.matchRangeInternal`: a char, or an `X-Y` span whose ends lie
in the same allowable range in order (on any failure of the span attempt,
fall back to the single first char). -/
def matchRangeInternal (s : List Char) : Option (List Char × List Char) :=
  match matchInternalChar s with
  | none => none
  | some (firstChar, i) =>
    match matchStaticL ['-'] i with
    | none => some ([firstChar], i)
    | some j =>
      match matchInternalChar j with
      | none => some ([firstChar], i)
      | some (lastChar, j2) =>
        match allowableRangesL.find? (fun r => firstChar ∈ r.toList) with
        | none => some ([firstChar], i)
        | some r =>
          if lastChar ∈ r.toList then
            let fi := r.toList.indexOf firstChar
            let li := r.toList.indexOf lastChar
            if fi ≥ li then some ([firstChar], i)
            else some ((r.toList.drop fi).take (li - fi + 1), j2)
          else some ([firstChar], i)

/-- `charclass.matchRangeInterior`: zero or more range items. -/
def matchRangeInteriorGo : Nat → List Char → List Char → List Char × List Char
  | 0, acc, s => (acc, s)
  | n + 1, acc, s =>
    match matchRangeInternal s with
    | none => (acc, s)
    | some (chars, s') => matchRangeInteriorGo n (acc ++ chars) s'

/-- `charclass.matchRange`: `[` interior `]`. -/
def matchRangeP (s : List Char) : Option (Term × List Char) :=
  match matchStaticL ['['] s with
  | none => none
  | some j =>
    match matchRangeInteriorGo (s.length + 1) [] j with
    | (chars, j2) =>
      match matchStaticL [']'] j2 with
      | none => none
      | some j3 => some (.tcc (ccmkChars chars) false, j3)

/-- `charclass.matchNegatedRange`: `[^` interior `]`. -/
def matchNegatedRange (s : List Char) : Option (Term × List Char) :=
  match matchStaticL ['[', '^'] s with
  | none => none
  | some j =>
    match matchRangeInteriorGo (s.length + 1) [] j with
    | (chars, j2) =>
      match matchStaticL [']'] j2 with
      | none => none
      | some j3 => some (.tcc (ccmkChars chars) true, j3)

/-- A charclass constant as a term. -/
def tccOf (c : CC) : Term := .tcc c.chars c.negated

/-- The shorthand keys tried first by `charclass.match`, in the
`shorthand` dict's insertion order. -/
def shorthandParse : List (Term × String) :=
  [(tccOf wCC, "\\w"), (tccOf dCC, "\\d"), (tccOf sCC, "\\s"),
   (tccOf WCC, "\\W"), (tccOf DCC, "\\D"), (tccOf SCC, "\\S"),
   (tccOf dotCC, ".")]

/-- `charclass.match`: shorthand, negated bracket class, bracket class,
named escape, escaped metacharacter, or a single non-special character. -/
def matchCharclass (s : List Char) : Option (Term × List Char) :=
  match shorthandParse.findSome?
      (fun p => (matchStaticL p.2.toList s).map (fun rest => (p.1, rest))) with
  | some r => some r
  | none =>
    match matchNegatedRange s with
    | some r => some r
    | none =>
      match matchRangeP s with
      | some r => some r
      | none =>
        match escapesTable.findSome?
            (fun p => (matchStaticL p.2.toList s).map
              (fun rest => (Term.tcc [p.1] false, rest))) with
        | some r => some r
        | none =>
          match allSpecialL.findSome?
              (fun c => (matchStaticL ['\\', c] s).map
                (fun rest => (Term.tcc [c] false, rest))) with
          | some r => some r
          | none =>
            match s with
            | [] => none
            | c :: rest =>
              if c ∈ allSpecialL then none else some (.tcc [c] false, rest)

/-- The digit-accumulation loop of `multiplier.matchInteger`. -/
def matchIntGo : Nat → Nat → List Char → Nat × List Char
  | 0, acc, s => (acc, s)
  | n + 1, acc, s =>
    match matchAnyOf "0123456789".toList s with
    | none => (acc, s)
    | some (d, rest) => matchIntGo n (acc * 10 + (d.toNat - '0'.toNat)) rest

/-- `multiplier.matchInteger`: `0`, or a nonzero digit followed by digits. -/
def matchInteger (s : List Char) : Option (Nat × List Char) :=
  match matchStaticL ['0'] s with
  | some rest => some (0, rest)
  | none =>
    match matchAnyOf "123456789".toList s with
    | none => none
    | some (d, rest) => some (matchIntGo (s.length + 1) (d.toNat - '0'.toNat) rest)

/-- Parse result: backtrackable failure (`MatchFailureException`), an
uncaught exception, or success. -/
inductive PRes (α : Type) where
  | fail
  | crash
  | ok (a : α)

/-- The `{m,n}` attempt of `multiplier.match`. -/
def matchBraceMM (s : List Char) : Option (Nat × Nat × List Char) :=
  match matchStaticL ['{'] s with
  | none => none
  | some j =>
    match matchInteger j with
    | none => none
    | some (mn, j) =>
      match matchStaticL [','] j with
      | none => none
      | some j =>
        match matchInteger j with
        | none => none
        | some (mx, j) =>
          match matchStaticL ['}'] j with
          | none => none
          | some j => some (mn, mx, j)

/-- The `{m,}` attempt of `multiplier.match`. -/
def matchBraceMin (s : List Char) : Option (Nat × List Char) :=
  match matchStaticL ['{'] s with
  | none => none
  | some j =>
    match matchInteger j with
    | none => none
    | some (mn, j) =>
      match matchStaticL [',', '}'] j with
      | none => none
      | some j => some (mn, j)

/-- The `{m}` attempt of `multiplier.match`. -/
def matchBraceExact (s : List Char) : Option (Nat × List Char) :=
  match matchStaticL ['{'] s with
  | none => none
  | some j =>
    match matchInteger j with
    | none => none
    | some (mn, j) =>
      match matchStaticL ['}'] j with
      | none => none
      | some j => some (mn, j)

/-- `multiplier.match`: the three braced forms, then the symbolic forms in
decreasing length of their text, ending with `""` (`one`), which always
matches.  `{m,n}` goes through the validating constructor, whose exception
is not caught anywhere (`.crash`). -/
def matchMultiplier (s : List Char) : PRes (Mplier × List Char) :=
  match matchBraceMM s with
  | some (mn, mx, j) =>
    match mkMultiplier (some (mn : Int)) (some (mx : Int)) with
    | some m => .ok (m, j)
    | none => .crash
  | none =>
    match matchBraceMin s with
    | some (mn, j) => .ok (⟨some mn, none⟩, j)
    | none =>
      match matchBraceExact s with
      | some (mn, j) => .ok (⟨some mn, some mn⟩, j)
      | none =>
        match matchStaticL ['?'] s with
        | some j => .ok (qmM, j)
        | none =>
          match matchStaticL ['*'] s with
          | some j => .ok (starM, j)
          | none =>
            match matchStaticL ['+'] s with
            | some j => .ok (plusM, j)
            | none => .ok (oneM, s)

/-- The multiplier step shared by both multiplicand alternatives of
`mult.match`. -/
def matchMultTail (mcand : Term) (j : List Char) : PRes (Term × List Char) :=
  match matchMultiplier j with
  | .crash => .crash
  | .fail => .fail
  | .ok (m, j2) => .ok (.tmult mcand m, j2)

mutual
/-- `mult.match`: try `(` pattern `)` (any match failure inside falls back
to a charclass multiplicand), then the multiplier. -/
def matchMult : Nat → List Char → PRes (Term × List Char)
  | 0, _ => .crash
  | n + 1, s =>
    match matchStaticL ['('] s with
    | none =>
      match matchCharclass s with
      | none => .fail
      | some (mcand, j) => matchMultTail mcand j
    | some j =>
      match matchPattern n j with
      | .crash => .crash
      | .fail =>
        match matchCharclass s with
        | none => .fail
        | some (mcand, j2) => matchMultTail mcand j2
      | .ok (p, j2) =>
        match matchStaticL [')'] j2 with
        | none =>
          match matchCharclass s with
          | none => .fail
          | some (mcand, j3) => matchMultTail mcand j3
        | some j3 => matchMultTail p j3
/-- The mult-collection loop of `conc.match`. -/
def matchConcGo : Nat → List Term → List Char → PRes (List Term × List Char)
  | 0, _, _ => .crash
  | n + 1, acc, s =>
    match matchMult n s with
    | .crash => .crash
    | .fail => .ok (acc, s)
    | .ok (m, s') => matchConcGo n (acc ++ [m]) s'
/-- `conc.match`. -/
def matchConc : Nat → List Char → PRes (Term × List Char)
  | 0, _ => .crash
  | n + 1, s =>
    match matchConcGo n [] s with
    | .crash => .crash
    | .fail => .fail
    | .ok (ms, s') => .ok (.tconc ms, s')
/-- The `'|' conc` loop of `pattern.match`. -/
def matchPatternLoop : Nat → List Term → List Char → PRes (List Term × List Char)
  | 0, _, _ => .crash
  | n + 1, acc, s =>
    match matchStaticL ['|'] s with
    | none => .ok (acc, s)
    | some j =>
      match matchConc n j with
      | .crash => .crash
      | .fail => .ok (acc, s)
      | .ok (c, j2) => matchPatternLoop n (acc ++ [c]) j2
/-- `pattern.match`: one conc, then zero or more `| conc`; the collected
concs form the pattern's frozenset. -/
def matchPattern : Nat → List Char → PRes (Term × List Char)
  | 0, _ => .crash
  | n + 1, s =>
    match matchConc n s with
    | .crash => .crash
    | .fail => .fail
    | .ok (c, j) =>
      match matchPatternLoop n [c] j with
      | .crash => .crash
      | .fail => .fail
      | .ok (cs, j2) => .ok (patmk cs, j2)
end

/-- `pattern.parse`: match a full pattern and require the whole input to
have been consumed; `none` is any raised exception. -/
def parseT (str : String) : Option Term :=
  match matchPattern ((str.length + 2) * 8) str.toList with
  | .ok (p, rest) => if rest = [] then some p else none
  | _ => none

/-! ## The `pattern.__and__` operand coercion (claim C5) -/

/-- An argument as seen by `pattern.__init__`: a term value or a class
object (type token). -/
inductive AndOperand where
  | term (t : Term)
  | typeToken (name : String)

/-- `pattern.__init__`'s validation: every argument must be a `conc`
value; anything else (in particular a class object) raises. -/
def patternInit (l : List AndOperand) : Except String Term :=
  if l.all (fun a => match a with | .term (.tconc _) => true | _ => false) then
    .ok (patmk (l.filterMap
      (fun a => match a with | .term t => some t | _ => none)))
  else .error "Can't put a non-conc in a pattern"

/-- The operand coercion at the top of `pattern.__and__`: a mult is wrapped
into a conc (`other = conc(other)`), and then anything that is a conc is
replaced by `pattern(conc)` — the source passes the *class object* `conc`,
not the value `other` — which `pattern.__init__` rejects. -/
def patternAndCoerce (other : AndOperand) : Except String AndOperand :=
  let other1 :=
    match other with
    | .term (.tmult m mp) => AndOperand.term (.tconc [.tmult m mp])
    | _ => other
  match other1 with
  | .term (.tconc _) => (patternInit [.typeToken "conc"]).map .term
  | _ => .ok other1
/-! ## Theorems -/

theorem nminO_eq_spec (x y : Option Nat) : nminO x y = nminSpec x y := by
  rcases x with _ | a <;> rcases y with _ | b <;>
    simp [nminO, nminSpec, leInf]
  split_ifs <;> simp [Nat.min_def, *]

/-- C7: multiplier intersection takes the componentwise minimum of the
`(mandatory, optional)` views, treating `∞` as larger than every finite
value, and rebuilds `(min, max)` by the spec's reconstruction; in particular
`multiplier(3,4) & multiplier(2,5) = multiplier(2,3)`. -/
theorem multiplier_and_matches_spec :
    (∀ a b : Mplier,
      andMp a b =
        some (reconstructSpec (nminSpec (mandatoryV a) (mandatoryV b))
          (nminSpec (optionalV a) (optionalV b)))) ∧
    andMp ⟨some 3, some 4⟩ ⟨some 2, some 5⟩ = some ⟨some 2, some 3⟩ := by
  constructor
  · intro a b
    rw [← nminO_eq_spec, ← nminO_eq_spec]
    rcases a with ⟨_ | am, _ | ax⟩ <;> rcases b with ⟨_ | bm, _ | bx⟩ <;>
      simp [andMp, mandatoryV, optionalV, nminO, reconstructSpec]
  · rfl

/-- C3 (counterexample): the claim says a subtraction whose resulting view is
`(∞, 0)` — e.g. `(∞,∞) ⊖ (1,∞)` — succeeds and returns `(∞,∞)`; in the source
`multiplier.__sub__` raises there (`newMandatory is None` with
`newOptional = 0` hits the `raise` branch), so the subtraction fails. -/
theorem multiplier_sub_inf_minus_plus_raises : subM infM plusM = none := rfl

/-- C3 (amended): multiplier subtraction works componentwise on the
`(mandatory, optional)` view (`n − m` for finite components, `∞ − ∞ = 0`,
`∞ − n = ∞`, `n − ∞` a domain error, leaving the domain a bounds error) and
reconstructs `(min, max)` as `min = mandatory`, `max = mandatory + optional`
(`∞` absorbing) — except that a resulting view of `(∞, 0)` is a domain
error, not `(∞,∞)`. -/
theorem multiplier_sub_matches_amended_spec (a b : Mplier)
    (ha : a.wf) (hb : b.wf) : subM a b = subSpecA a b := by
  rcases a with ⟨_ | am, _ | ax⟩ <;> rcases b with ⟨_ | bm, _ | bx⟩ <;>
    simp [Mplier.wf] at ha hb <;>
    simp only [subM, subSpecA, mandatoryV, optionalV, subViewSpec,
      reconstructSubAmended, mkMultiplier] <;>
    split_ifs <;> simp_all <;> omega

theorem multiplier_sub_matches_amended_spec_witness :
    Mplier.wf ⟨some 4, some 5⟩ ∧ Mplier.wf ⟨some 3, some 3⟩ ∧
    subM ⟨some 4, some 5⟩ ⟨some 3, some 3⟩ =
      subSpecA ⟨some 4, some 5⟩ ⟨some 3, some 3⟩ :=
  ⟨by decide, by decide,
    multiplier_sub_matches_amended_spec ⟨some 4, some 5⟩ ⟨some 3, some 3⟩
      (by decide) (by decide)⟩

/-- C6: for every two charclasses, over the full truth table of
positive/negative operand pairs, difference equals intersection with the
complement: `A - B = A & ~B`. -/
theorem charclass_sub_eq_and_invert (A B : CC) :
    ccSub A B = ccAnd A (ccInvert B) := by
  rcases A with ⟨ac, _ | _⟩ <;> rcases B with ⟨bc, _ | _⟩ <;> rfl

/-! Lawfulness of the canonical term order. -/

theorem cmpLin_eq_iff {α : Type} [LinearOrder α] {a b : α} :
    cmpLin a b = .eq ↔ a = b := by
  simp only [cmpLin]
  split_ifs with h1 h2
  · simp only [reduceCtorEq, false_iff]; exact ne_of_lt h1
  · simp only [reduceCtorEq, false_iff]; exact fun h => absurd h.symm (ne_of_lt h2)
  · simp only [true_iff]; exact le_antisymm (not_lt.mp h2) (not_lt.mp h1)

theorem cmpLin_swap {α : Type} [LinearOrder α] (a b : α) :
    (cmpLin a b).swap = cmpLin b a := by
  simp only [cmpLin]
  rcases lt_trichotomy a b with h | h | h
  · rw [if_pos h, if_neg (lt_asymm h), if_pos h]; rfl
  · subst h; simp only [lt_irrefl, if_false]; rfl
  · rw [if_neg (lt_asymm h), if_pos h, if_neg (lt_asymm h), if_pos h]; rfl

theorem cmpLin_lt_iff {α : Type} [LinearOrder α] {a b : α} :
    cmpLin a b = .lt ↔ a < b := by
  simp only [cmpLin]
  split_ifs with h1 h2
  · simp [h1]
  · simp only [reduceCtorEq, false_iff]; exact lt_asymm h2
  · simp only [reduceCtorEq, false_iff]; exact h1

theorem cmpLin_lt_trans {α : Type} [LinearOrder α] {a b c : α}
    (h1 : cmpLin a b = .lt) (h2 : cmpLin b c = .lt) : cmpLin a c = .lt := by
  rw [cmpLin_lt_iff] at *
  exact lt_trans h1 h2

theorem then_eq_eq {x y : Ordering} : x.then y = .eq ↔ x = .eq ∧ y = .eq := by
  cases x <;> simp [Ordering.then]

theorem then_eq_lt {x y : Ordering} :
    x.then y = .lt ↔ x = .lt ∨ (x = .eq ∧ y = .lt) := by
  cases x <;> simp [Ordering.then]

theorem then_swap (x y : Ordering) : (x.then y).swap = x.swap.then y.swap := by
  cases x <;> rfl

theorem cmpONat_eq_iff {a b : Option Nat} : cmpONat a b = .eq ↔ a = b := by
  cases a <;> cases b <;> simp [cmpONat, cmpLin_eq_iff]

theorem cmpONat_swap (a b : Option Nat) : (cmpONat a b).swap = cmpONat b a := by
  cases a <;> cases b <;> simp [cmpONat, cmpLin_swap] <;> rfl

theorem cmpONat_lt_trans {a b c : Option Nat} (h1 : cmpONat a b = .lt)
    (h2 : cmpONat b c = .lt) : cmpONat a c = .lt := by
  cases a <;> cases b <;> cases c <;> simp_all [cmpONat]
  exact cmpLin_lt_trans h1 h2

theorem cmpCharList_eq_iff : ∀ {a b : List Char}, cmpCharList a b = .eq ↔ a = b
  | [], [] => by simp [cmpCharList]
  | [], _ :: _ => by simp [cmpCharList]
  | _ :: _, [] => by simp [cmpCharList]
  | a :: as, b :: bs => by
    simp [cmpCharList, then_eq_eq, cmpLin_eq_iff, cmpCharList_eq_iff]

theorem cmpCharList_swap : ∀ (a b : List Char), (cmpCharList a b).swap = cmpCharList b a
  | [], [] => rfl
  | [], _ :: _ => rfl
  | _ :: _, [] => rfl
  | a :: as, b :: bs => by
    simp [cmpCharList, then_swap, cmpLin_swap, cmpCharList_swap as bs]

theorem cmpCharList_lt_trans : ∀ {a b c : List Char}, cmpCharList a b = .lt →
    cmpCharList b c = .lt → cmpCharList a c = .lt
  | [], _ :: _, _ :: _, _, _ => by simp [cmpCharList]
  | a :: as, b :: bs, c :: cs, h1, h2 => by
    simp only [cmpCharList, then_eq_lt] at h1 h2 ⊢
    rcases h1 with h1 | ⟨h1e, h1t⟩
    · rcases h2 with h2 | ⟨h2e, h2t⟩
      · exact Or.inl (cmpLin_lt_trans h1 h2)
      · rw [cmpLin_eq_iff] at h2e; subst h2e; exact Or.inl h1
    · rw [cmpLin_eq_iff] at h1e; subst h1e
      rcases h2 with h2 | ⟨h2e, h2t⟩
      · exact Or.inl h2
      · rw [cmpLin_eq_iff] at h2e; subst h2e
        exact Or.inr ⟨cmpLin_eq_iff.mpr rfl, cmpCharList_lt_trans h1t h2t⟩

theorem cmpMp_eq_iff {a b : Mplier} : cmpMp a b = .eq ↔ a = b := by
  rcases a with ⟨m1, x1⟩; rcases b with ⟨m2, x2⟩
  simp [cmpMp, then_eq_eq, cmpONat_eq_iff]

theorem cmpMp_swap (a b : Mplier) : (cmpMp a b).swap = cmpMp b a := by
  simp [cmpMp, then_swap, cmpONat_swap]

theorem cmpMp_lt_trans {a b c : Mplier} (h1 : cmpMp a b = .lt)
    (h2 : cmpMp b c = .lt) : cmpMp a c = .lt := by
  simp only [cmpMp, then_eq_lt] at h1 h2 ⊢
  rcases h1 with h1 | ⟨h1e, h1t⟩
  · rcases h2 with h2 | ⟨h2e, h2t⟩
    · exact Or.inl (cmpONat_lt_trans h1 h2)
    · rw [cmpONat_eq_iff] at h2e; rw [← h2e]; exact Or.inl h1
  · rw [cmpONat_eq_iff] at h1e; rw [h1e]
    rcases h2 with h2 | ⟨h2e, h2t⟩
    · exact Or.inl h2
    · rw [cmpONat_eq_iff] at h2e; rw [h2e]
      exact Or.inr ⟨cmpONat_eq_iff.mpr rfl, cmpONat_lt_trans h1t h2t⟩

theorem eq_then (y : Ordering) : Ordering.eq.then y = y := rfl

theorem then_of_ne_eq {x : Ordering} (h : x ≠ .eq) (y : Ordering) : x.then y = x := by
  cases x
  · rfl
  · exact absurd rfl h
  · rfl

theorem tcmp_step (t u : Term) :
    tcmp t u = (cmpLin (trank t) (trank u)).then (tcmpS t u) := by
  rw [tcmp]

theorem tcmpS_cc (c1 c2 : List Char) (n1 n2 : Bool) :
    tcmpS (.tcc c1 n1) (.tcc c2 n2) = (cmpCharList c1 c2).then (cmpLin n1 n2) := by
  simp [tcmpS]

theorem tcmpS_mult (x1 x2 : Term) (m1 m2 : Mplier) :
    tcmpS (.tmult x1 m1) (.tmult x2 m2) = (tcmp x1 x2).then (cmpMp m1 m2) := by
  simp [tcmpS]

theorem tcmpS_conc (l1 l2 : List Term) :
    tcmpS (.tconc l1) (.tconc l2) = tcmpL l1 l2 := by simp [tcmpS]

theorem tcmpS_pat (l1 l2 : List Term) :
    tcmpS (.tpat l1) (.tpat l2) = tcmpL l1 l2 := by simp [tcmpS]

theorem tcmpL_nil_nil : tcmpL [] [] = .eq := by simp [tcmpL]

theorem tcmpL_nil_cons (b : Term) (bs : List Term) : tcmpL [] (b :: bs) = .lt := by
  simp [tcmpL]

theorem tcmpL_cons_nil (a : Term) (as : List Term) : tcmpL (a :: as) [] = .gt := by
  simp [tcmpL]

theorem tcmpL_cons_cons (a b : Term) (as bs : List Term) :
    tcmpL (a :: as) (b :: bs) = (tcmp a b).then (tcmpL as bs) := by
  simp [tcmpL]

theorem cmpLin_self {α : Type} [LinearOrder α] (a : α) : cmpLin a a = .eq := by
  simp [cmpLin]

/-- For terms of different constructors, `tcmp` is the rank comparison and is
never `.eq`. -/
theorem tcmp_of_rank_ne {t u : Term} (h : trank t ≠ trank u) :
    tcmp t u = cmpLin (trank t) (trank u) ∧ tcmp t u ≠ .eq := by
  have hne : cmpLin (trank t) (trank u) ≠ .eq := fun hc => h (cmpLin_eq_iff.mp hc)
  rw [tcmp_step, then_of_ne_eq hne]
  exact ⟨rfl, hne⟩

theorem tcmp_eq_aux : ∀ n : Nat,
    (∀ t u : Term, sizeOf t ≤ n → (tcmp t u = .eq ↔ t = u)) ∧
    (∀ l1 l2 : List Term, sizeOf l1 ≤ n → (tcmpL l1 l2 = .eq ↔ l1 = l2)) := by
  intro n
  induction n with
  | zero =>
    constructor
    · intro t u h; cases t <;> simp at h
    · intro l1 l2 h; cases l1 <;> simp at h
  | succ n ih =>
    constructor
    · intro t u h
      by_cases hr : trank t = trank u
      case neg =>
        have hne := (tcmp_of_rank_ne hr).2
        simp only [hne, false_iff]
        intro he; exact hr (by rw [he])
      case pos =>
        rcases t with ⟨c1, n1⟩ | ⟨x1, m1⟩ | l1 | l1 <;>
          rcases u with ⟨c2, n2⟩ | ⟨x2, m2⟩ | l2 | l2 <;>
          simp only [trank] at hr <;> try omega
        · rw [tcmp_step, trank, trank, cmpLin_self, eq_then, tcmpS_cc]
          simp [then_eq_eq, cmpCharList_eq_iff, cmpLin_eq_iff]
        · rw [tcmp_step, trank, trank, cmpLin_self, eq_then, tcmpS_mult]
          have hx : sizeOf x1 ≤ n := by simp at h; omega
          simp [then_eq_eq, ih.1 x1 x2 hx, cmpMp_eq_iff]
        · rw [tcmp_step, trank, trank, cmpLin_self, eq_then, tcmpS_conc]
          have hl : sizeOf l1 ≤ n := by simp at h; omega
          simp [ih.2 l1 l2 hl]
        · rw [tcmp_step, trank, trank, cmpLin_self, eq_then, tcmpS_pat]
          have hl : sizeOf l1 ≤ n := by simp at h; omega
          simp [ih.2 l1 l2 hl]
    · intro l1 l2 h
      rcases l1 with _ | ⟨a, as⟩ <;> rcases l2 with _ | ⟨b, bs⟩
      · simp [tcmpL_nil_nil]
      · simp [tcmpL_nil_cons]
      · simp [tcmpL_cons_nil]
      · have ha : sizeOf a ≤ n := by simp at h; omega
        have has : sizeOf as ≤ n := by simp at h; omega
        rw [tcmpL_cons_cons]
        simp [then_eq_eq, ih.1 a b ha, ih.2 as bs has]

theorem tcmp_eq_iff {t u : Term} : tcmp t u = .eq ↔ t = u :=
  (tcmp_eq_aux (sizeOf t)).1 t u le_rfl

theorem tcmp_swap_aux : ∀ n : Nat,
    (∀ t u : Term, sizeOf t ≤ n → (tcmp t u).swap = tcmp u t) ∧
    (∀ l1 l2 : List Term, sizeOf l1 ≤ n → (tcmpL l1 l2).swap = tcmpL l2 l1) := by
  intro n
  induction n with
  | zero =>
    constructor
    · intro t u h; cases t <;> simp at h
    · intro l1 l2 h; cases l1 <;> simp at h
  | succ n ih =>
    constructor
    · intro t u h
      by_cases hr : trank t = trank u
      case neg =>
        have h1 := (tcmp_of_rank_ne hr).1
        have h2 := (tcmp_of_rank_ne (Ne.symm hr)).1
        rw [h1, h2, cmpLin_swap]
      case pos =>
        rcases t with ⟨c1, n1⟩ | ⟨x1, m1⟩ | l1 | l1 <;>
          rcases u with ⟨c2, n2⟩ | ⟨x2, m2⟩ | l2 | l2 <;>
          simp only [trank] at hr <;> try omega
        · rw [tcmp_step, tcmp_step, trank, trank, cmpLin_self, eq_then, eq_then,
            tcmpS_cc, tcmpS_cc, then_swap, cmpCharList_swap, cmpLin_swap]
        · have hx : sizeOf x1 ≤ n := by simp at h; omega
          rw [tcmp_step, tcmp_step, trank, trank, cmpLin_self, eq_then, eq_then,
            tcmpS_mult, tcmpS_mult, then_swap, ih.1 x1 x2 hx, cmpMp_swap]
        · have hl : sizeOf l1 ≤ n := by simp at h; omega
          rw [tcmp_step, tcmp_step, trank, trank, cmpLin_self, eq_then, eq_then,
            tcmpS_conc, tcmpS_conc, ih.2 l1 l2 hl]
        · have hl : sizeOf l1 ≤ n := by simp at h; omega
          rw [tcmp_step, tcmp_step, trank, trank, cmpLin_self, eq_then, eq_then,
            tcmpS_pat, tcmpS_pat, ih.2 l1 l2 hl]
    · intro l1 l2 h
      rcases l1 with _ | ⟨a, as⟩ <;> rcases l2 with _ | ⟨b, bs⟩
      · rw [tcmpL_nil_nil]; rfl
      · rw [tcmpL_nil_cons, tcmpL_cons_nil]; rfl
      · rw [tcmpL_cons_nil, tcmpL_nil_cons]; rfl
      · have ha : sizeOf a ≤ n := by simp at h; omega
        have has : sizeOf as ≤ n := by simp at h; omega
        rw [tcmpL_cons_cons, tcmpL_cons_cons, then_swap, ih.1 a b ha,
          ih.2 as bs has]

theorem tcmp_swap (t u : Term) : (tcmp t u).swap = tcmp u t :=
  (tcmp_swap_aux (sizeOf t)).1 t u le_rfl

theorem tcmp_lt_trans_aux : ∀ n : Nat,
    (∀ t u v : Term, sizeOf t ≤ n → tcmp t u = .lt → tcmp u v = .lt →
      tcmp t v = .lt) ∧
    (∀ l1 l2 l3 : List Term, sizeOf l1 ≤ n → tcmpL l1 l2 = .lt →
      tcmpL l2 l3 = .lt → tcmpL l1 l3 = .lt) := by
  intro n
  induction n with
  | zero =>
    constructor
    · intro t u v h; cases t <;> simp at h
    · intro l1 l2 l3 h; cases l1 <;> simp at h
  | succ n ih =>
    constructor
    · intro t u v h h1 h2
      rw [tcmp_step, then_eq_lt] at h1 h2 ⊢
      rcases h1 with h1 | ⟨h1e, h1t⟩
      · rcases h2 with h2 | ⟨h2e, h2t⟩
        · exact Or.inl (cmpLin_lt_trans h1 h2)
        · rw [cmpLin_eq_iff] at h2e; rw [← h2e]; exact Or.inl h1
      · rw [cmpLin_eq_iff] at h1e
        rcases h2 with h2 | ⟨h2e, h2t⟩
        · rw [h1e]; exact Or.inl h2
        · rw [cmpLin_eq_iff] at h2e
          refine Or.inr ⟨cmpLin_eq_iff.mpr (h1e.trans h2e), ?_⟩
          rcases t with ⟨c1, n1⟩ | ⟨x1, m1⟩ | l1 | l1 <;>
            rcases u with ⟨c2, n2⟩ | ⟨x2, m2⟩ | l2 | l2 <;>
            simp only [trank] at h1e <;> try omega
          · rcases v with ⟨c3, n3⟩ | ⟨x3, m3⟩ | l3 | l3 <;>
              simp only [trank] at h2e <;> try omega
            rw [tcmpS_cc] at h1t h2t ⊢
            rw [then_eq_lt] at h1t h2t ⊢
            rcases h1t with ha | ⟨hae, hat⟩
            · rcases h2t with hb | ⟨hbe, hbt⟩
              · exact Or.inl (cmpCharList_lt_trans ha hb)
              · rw [cmpCharList_eq_iff] at hbe; rw [← hbe]; exact Or.inl ha
            · rw [cmpCharList_eq_iff] at hae; rw [hae]
              rcases h2t with hb | ⟨hbe, hbt⟩
              · exact Or.inl hb
              · rw [cmpCharList_eq_iff] at hbe; rw [hbe]
                exact Or.inr ⟨cmpCharList_eq_iff.mpr rfl, cmpLin_lt_trans hat hbt⟩
          · rcases v with ⟨c3, n3⟩ | ⟨x3, m3⟩ | l3 | l3 <;>
              simp only [trank] at h2e <;> try omega
            rw [tcmpS_mult] at h1t h2t ⊢
            rw [then_eq_lt] at h1t h2t ⊢
            have hx : sizeOf x1 ≤ n := by simp at h; omega
            rcases h1t with ha | ⟨hae, hat⟩
            · rcases h2t with hb | ⟨hbe, hbt⟩
              · exact Or.inl (ih.1 x1 x2 x3 hx ha hb)
              · rw [tcmp_eq_iff] at hbe; rw [← hbe]; exact Or.inl ha
            · rw [tcmp_eq_iff] at hae; rw [hae]
              rcases h2t with hb | ⟨hbe, hbt⟩
              · exact Or.inl hb
              · rw [tcmp_eq_iff] at hbe; rw [hbe]
                exact Or.inr ⟨tcmp_eq_iff.mpr rfl, cmpMp_lt_trans hat hbt⟩
          · rcases v with ⟨c3, n3⟩ | ⟨x3, m3⟩ | l3 | l3 <;>
              simp only [trank] at h2e <;> try omega
            rw [tcmpS_conc] at h1t h2t ⊢
            have hl : sizeOf l1 ≤ n := by simp at h; omega
            exact ih.2 l1 l2 l3 hl h1t h2t
          · rcases v with ⟨c3, n3⟩ | ⟨x3, m3⟩ | l3 | l3 <;>
              simp only [trank] at h2e <;> try omega
            rw [tcmpS_pat] at h1t h2t ⊢
            have hl : sizeOf l1 ≤ n := by simp at h; omega
            exact ih.2 l1 l2 l3 hl h1t h2t
    · intro l1 l2 l3 h h1 h2
      rcases l1 with _ | ⟨a, as⟩ <;> rcases l2 with _ | ⟨b, bs⟩ <;>
        rcases l3 with _ | ⟨c, cs⟩
      · rw [tcmpL_nil_nil] at h1; cases h1
      · rw [tcmpL_nil_nil] at h1; cases h1
      · rw [tcmpL_cons_nil] at h2; cases h2
      · exact tcmpL_nil_cons c cs
      · rw [tcmpL_cons_nil] at h1; cases h1
      · rw [tcmpL_cons_nil] at h1; cases h1
      · rw [tcmpL_cons_nil] at h2; cases h2
      · have ha : sizeOf a ≤ n := by simp at h; omega
        have has : sizeOf as ≤ n := by simp at h; omega
        rw [tcmpL_cons_cons] at h1 h2 ⊢
        rw [then_eq_lt] at h1 h2 ⊢
        rcases h1 with ha1 | ⟨hae, hat⟩
        · rcases h2 with hb1 | ⟨hbe, hbt⟩
          · exact Or.inl (ih.1 a b c ha ha1 hb1)
          · rw [tcmp_eq_iff] at hbe; rw [← hbe]; exact Or.inl ha1
        · rw [tcmp_eq_iff] at hae; rw [hae]
          rcases h2 with hb1 | ⟨hbe, hbt⟩
          · exact Or.inl hb1
          · rw [tcmp_eq_iff] at hbe; rw [hbe]
            exact Or.inr ⟨tcmp_eq_iff.mpr rfl, ih.2 as bs cs has hat hbt⟩

theorem tcmp_lt_trans {t u v : Term} (h1 : tcmp t u = .lt) (h2 : tcmp u v = .lt) :
    tcmp t v = .lt :=
  (tcmp_lt_trans_aux (sizeOf t)).1 t u v le_rfl h1 h2

theorem leT_total (t u : Term) : leT t u ∨ leT u t := by
  unfold leT
  by_cases h : tcmp t u = .gt
  · right
    rw [← tcmp_swap t u, h]
    simp [Ordering.swap]
  · left; exact h

theorem leT_antisymm {t u : Term} (h1 : leT t u) (h2 : leT u t) : t = u := by
  unfold leT at h1 h2
  rw [← tcmp_swap t u] at h2
  rcases ho : tcmp t u with _ | _ | _
  · rw [ho] at h2; simp [Ordering.swap] at h2
  · exact tcmp_eq_iff.mp ho
  · exact absurd ho h1

theorem leT_trans {t u v : Term} (h1 : leT t u) (h2 : leT u v) : leT t v := by
  unfold leT at *
  rcases ho : tcmp t u with _ | _ | _
  · rcases ho2 : tcmp u v with _ | _ | _
    · rw [tcmp_lt_trans ho ho2]; simp
    · rw [tcmp_eq_iff] at ho2; subst ho2; rw [ho]; simp
    · exact absurd ho2 h2
  · rw [tcmp_eq_iff] at ho; subst ho; exact h2
  · exact absurd ho h1

/-- Canonicalization is a function of the underlying set: lists with the same
members produce the same `patmk` pattern. -/
theorem patmk_eq_of_mem_iff (l1 l2 : List Term) (h : ∀ c, c ∈ l1 ↔ c ∈ l2) :
    patmk l1 = patmk l2 := by
  unfold patmk
  haveI : IsTotal Term leT := ⟨leT_total⟩
  haveI : IsTrans Term leT := ⟨fun _ _ _ => leT_trans⟩
  haveI : IsAntisymm Term leT := ⟨fun _ _ => leT_antisymm⟩
  have hperm : List.Perm l1.dedup l2.dedup := by
    rw [List.perm_ext_iff_of_nodup (List.nodup_dedup l1) (List.nodup_dedup l2)]
    intro a
    simp only [List.mem_dedup]
    exact h a
  have : List.Perm (List.insertionSort leT l1.dedup) (List.insertionSort leT l2.dedup) :=
    ((List.perm_insertionSort leT l1.dedup).trans hperm).trans
      (List.perm_insertionSort leT l2.dedup).symm
  rw [List.eq_of_perm_of_sorted this
    (List.sorted_insertionSort leT l1.dedup)
    (List.sorted_insertionSort leT l2.dedup)]

theorem reduceF_sound : ∀ n : Nat,
    (∀ t r : Term, reduceF n t = some r → Reduces t r) ∧
    (∀ cs : List Term, ∀ r : Term, cs.find? concVacuousB = none →
      reducePatF n cs = some r → Reduces (.tpat cs) r) ∧
    (∀ ms rs : List Term, reduceListF n ms = some rs →
      ∃ h : ms.length = rs.length,
        ∀ i : Fin ms.length, Reduces (ms.get i) (rs.get (Fin.cast h i))) := by
  intro n
  induction n with
  | zero =>
    refine ⟨?_, ?_, ?_⟩
    · intro t r h; simp [reduceF] at h
    · intro cs r _ h; simp [reducePatF] at h
    · intro ms rs h
      cases ms with
      | nil =>
        simp [reduceListF] at h
        subst h
        exact ⟨rfl, fun i => i.elim0⟩
      | cons m ms => simp [reduceListF] at h
  | succ n ih =>
    refine ⟨?_, ?_, ?_⟩
    · intro t r h
      match t with
      | .tcc c ng =>
        simp only [reduceF, Option.some.injEq] at h
        subst h
        exact .ccSelf c ng
      | .tmult x μ =>
        simp only [reduceF] at h
        by_cases hea : multHasEmptyAlt x = true
        · rw [if_pos hea] at h
          match x, hea with
          | .tpat cs, hea =>
            exact .multEmptyAlt (by simpa [multHasEmptyAlt] using hea) (ih.1 _ _ h)
        · rw [if_neg hea] at h
          rw [Bool.not_eq_true] at hea
          by_cases hz : μ = zeroM
          · subst hz
            rw [if_pos rfl] at h
            exact .multZero hea (ih.1 _ _ h)
          · rw [if_neg hz] at h
            by_cases hn : x = nothingP
            · subst hn
              rw [if_pos rfl] at h
              by_cases hm0 : μ.mn = some 0
              · rw [if_pos hm0] at h
                exact .multNothingEps hz hm0 (ih.1 _ _ h)
              · rw [if_neg hm0] at h
                exact .multNothingCC hz hm0 (ih.1 _ _ h)
            · rw [if_neg hn] at h
              by_cases ho : μ = oneM
              · subst ho
                rw [if_pos rfl] at h
                exact .multOne hea hn (ih.1 _ _ h)
              · rw [if_neg ho] at h
                match hx : reduceF n x with
                | none => rw [hx] at h; cases h
                | some x' =>
                  rw [hx] at h
                  simp only at h
                  have hxr := ih.1 _ _ hx
                  by_cases hbp : bulkPat x' ≠ x
                  · rw [if_pos hbp] at h
                    exact .multChild hea hz hn ho hxr hbp (ih.1 _ _ h)
                  · rw [if_neg hbp] at h
                    rw [not_not] at hbp
                    split at h
                    · exact .multSingleton hz ho hxr hbp (ih.1 _ _ h)
                    · simp only [Option.some.injEq] at h
                      subst h
                      exact .multSelf hea hz hn ho hxr hbp
                        (by intro y ν hc; subst hc; simp_all)
      | .tconc ms =>
        simp only [reduceF] at h
        by_cases hv : ms.any vacuousMult = true
        · rw [if_pos hv] at h
          exact .concVacuous hv (ih.1 _ _ h)
        · rw [if_neg hv] at h
          rw [Bool.not_eq_true] at hv
          split at h
          case _ m =>
            exact .concSingle (by simpa using hv) (ih.1 _ _ h)
          case _ hnsingle =>
            have hlen : ms.length ≠ 1 := by
              match ms, hnsingle with
              | [], _ => simp
              | [a], hns => exact absurd rfl (hns a)
              | _ :: _ :: _, _ => simp
            match hrs : reduceListF n ms with
            | none => rw [hrs] at h; cases h
            | some rs =>
              rw [hrs] at h
              simp only at h
              obtain ⟨hlen2, hkids⟩ := ih.2.2 _ _ hrs
              by_cases hch : rs.map bulkMult ≠ ms
              · rw [if_pos hch] at h
                exact .concChild hv hlen hlen2 hkids hch (ih.1 _ _ h)
              · rw [if_neg hch] at h
                rw [not_not] at hch
                match hsq : squishFirst ms with
                | some ms2 =>
                  rw [hsq] at h
                  exact .concSquish hv hlen hlen2 hkids hch hsq (ih.1 _ _ h)
                | none =>
                  rw [hsq] at h
                  match hsp : spliceFirst ms with
                  | some ms3 =>
                    rw [hsp] at h
                    exact .concSplice hv hlen hlen2 hkids hch hsq hsp (ih.1 _ _ h)
                  | none =>
                    rw [hsp] at h
                    simp only [Option.some.injEq] at h
                    subst h
                    exact .concSelf hv hlen hlen2 hkids hch hsq hsp
      | .tpat cs =>
        simp only [reduceF] at h
        match hf : cs.find? concVacuousB with
        | some c =>
          rw [hf] at h
          exact .patVacuous hf (ih.1 _ _ h)
        | none =>
          rw [hf] at h
          exact ih.2.1 cs r hf h
    · intro cs r hf h
      simp only [reducePatF] at h
      split at h
      case _ c =>
        have hc : concVacuousB c = false := by
          have := List.find?_eq_none.mp hf c (by simp)
          simpa using this
        exact .patSingle hc (ih.1 _ _ h)
      case _ hnsingle =>
        have hlen : cs.length ≠ 1 := by
          match cs, hnsingle with
          | [], _ => simp
          | [a], hns => exact absurd rfl (hns a)
          | _ :: _ :: _, _ => simp
        match hrs : reduceListF n cs with
        | none => rw [hrs] at h; cases h
        | some rs =>
          rw [hrs] at h
          simp only at h
          obtain ⟨hlen2, hkids⟩ := ih.2.2 _ _ hrs
          by_cases hch : patmk (rs.map bulkConc) ≠ .tpat cs
          · rw [if_pos hch] at h
            exact .patChild hf hlen hlen2 hkids hch (ih.1 _ _ h)
          · rw [if_neg hch] at h
            rw [not_not] at hch
            match hm : ccMergeScan cs with
            | some cs2 =>
              rw [hm] at h
              exact .patMerge hf hlen hlen2 hkids hch hm (ih.1 _ _ h)
            | none =>
              rw [hm] at h
              match hp : concPreT cs with
              | .crash => rw [hp] at h; cases h
              | .res (p :: ps) L =>
                rw [hp] at h
                exact .patPre hf hlen hlen2 hkids hch hm hp (ih.1 _ _ h)
              | .res [] L1 =>
                rw [hp] at h
                simp only at h
                match hs : concSufT cs with
                | .crash => rw [hs] at h; cases h
                | .res L2 (s :: ss) =>
                  rw [hs] at h
                  exact .patSuf hf hlen hlen2 hkids hch hm hp hs (ih.1 _ _ h)
                | .res L2 [] =>
                  rw [hs] at h
                  simp only [Option.some.injEq] at h
                  subst h
                  exact .patSelf hf hlen hlen2 hkids hch hm hp hs
    · intro ms rs h
      match ms with
      | [] =>
        simp [reduceListF] at h
        subst h
        exact ⟨rfl, fun i => i.elim0⟩
      | m :: mstail =>
        simp only [reduceListF] at h
        match hm : reduceF n m, hms : reduceListF n mstail with
        | some r0, some rs0 =>
          rw [hm, hms] at h
          simp only [Option.some.injEq] at h
          subst h
          obtain ⟨hlen, hall⟩ := ih.2.2 _ _ hms
          refine ⟨by simp [hlen], fun i => ?_⟩
          match i with
          | ⟨0, _⟩ => exact ih.1 _ _ hm
          | ⟨j + 1, hj⟩ => exact hall ⟨j, by simpa using hj⟩
        | some _, none => rw [hm, hms] at h; cases h
        | none, _ => rw [hm] at h; cases h

/-- C1: reduction is idempotent.  `Reduces t r` is the big-step graph of
`reduce()` ("the call `t.reduce()` returns `r`"), so this states: whenever
`reduce(T)` returns `r`, `reduce(r)` returns `r` again — i.e.
`reduce(reduce(T)) = reduce(T)` — for terms of all four kinds. -/
theorem reduce_idempotent : ∀ {t r : Term}, Reduces t r → Reduces r r := by
  intro t r h
  induction h
  all_goals try assumption
  case ccSelf c n => exact Reduces.ccSelf c n
  case multSelf x x' μ h1 h2 h3 h4 hx hch h6 ihx =>
    exact Reduces.multSelf h1 h2 h3 h4 hx hch h6
  case concSelf ms rs hv hlen hlen2 hkids hch hsq hsp ihkids =>
    exact Reduces.concSelf hv hlen hlen2 hkids hch hsq hsp
  case patSelf cs rs L1 L2 hf hlen hlen2 hkids hch hm hp hs ihkids =>
    exact Reduces.patSelf hf hlen hlen2 hkids hch hm hp hs

theorem reduce_idempotent_witness :
    Reduces (.tmult (.tcc ['a'] false) oneM) (.tcc ['a'] false) ∧
    Reduces (.tcc ['a'] false) (.tcc ['a'] false) :=
  have hd : Reduces (.tmult (.tcc ['a'] false) oneM) (.tcc ['a'] false) :=
    .multOne rfl (by simp [nothingP]) (.ccSelf ['a'] false)
  ⟨hd, reduce_idempotent hd⟩

/-- C8: `pattern` is unordered while `conc` is ordered: patterns built by the
`pattern(*concs)` constructor from lists with the same concs (in any order,
with any duplication) are equal and hash equal, whereas concs with the same
mults in different orders are in general not equal. -/
theorem pattern_unordered_conc_ordered :
    (∀ l1 l2 : List Term, (∀ c, c ∈ l1 ↔ c ∈ l2) →
      patmk l1 = patmk l2 ∧ thash (patmk l1) = thash (patmk l2)) ∧
    Term.tconc [.tmult (.tcc ['a'] false) oneM, .tmult (.tcc ['b'] false) oneM] ≠
      Term.tconc [.tmult (.tcc ['b'] false) oneM, .tmult (.tcc ['a'] false) oneM] := by
  constructor
  · intro l1 l2 h
    have he := patmk_eq_of_mem_iff l1 l2 h
    exact ⟨he, by rw [he]⟩
  · intro hc
    simp only [Term.tconc.injEq, List.cons.injEq, Term.tmult.injEq,
      Term.tcc.injEq, List.cons.injEq] at hc
    exact absurd hc.1.1.1 (by decide)

theorem pattern_unordered_conc_ordered_witness :
    patmk [Term.tconc [], Term.tconc [.tmult (.tcc ['a'] false) oneM]] =
      patmk [Term.tconc [.tmult (.tcc ['a'] false) oneM], Term.tconc []] ∧
    thash (patmk [Term.tconc [], Term.tconc [.tmult (.tcc ['a'] false) oneM]]) =
      thash (patmk [Term.tconc [.tmult (.tcc ['a'] false) oneM], Term.tconc []]) :=
  pattern_unordered_conc_ordered.1 _ _
    (fun c => by constructor <;> (intro hm; simp only [List.mem_cons, List.mem_singleton] at hm ⊢; tauto))

/-! Rendering theorems. -/

theorem ccRegex_none_iff {cs : List Char} {ng : Bool} :
    ccRegex cs ng = none ↔ (cs = [] ∧ ng = false) := by
  rcases cs with _ | ⟨c, cs'⟩
  · cases ng
    · simp only [ccRegex]
      rw [show lookupShorthand ⟨[], false⟩ = none from rfl]
      simp
    · simp only [ccRegex]
      rw [show lookupShorthand ⟨[], true⟩ = some "." from rfl]
      simp
  · simp only [ccRegex]
    cases hlk : lookupShorthand ⟨c :: cs', ng⟩
    · simp only [List.length_cons]
      rw [if_neg (by omega)]
      cases ng
      · simp only [if_neg Bool.false_ne_true]
        rcases cs' with _ | ⟨c2, cs''⟩
        · cases hesc : escapesTable.find? (fun p => p.1 = c)
          · simp only [hesc]
            split_ifs <;> simp
          · simp [hesc]
        · simp
      · simp
    · simp

theorem mpRegex_none_iff {m : Mplier} :
    mpRegex m = none ↔ (m.mx = some 0 ∨ m.mn = none) := by
  by_cases hc : m.mx = some 0 ∨ m.mn = none
  · simp only [mpRegex, if_pos hc]
    simpa using hc
  · simp only [mpRegex, if_neg hc]
    push_neg at hc
    obtain ⟨hmx, hmn⟩ := hc
    cases hsy : symbolicTable.find? (fun p => p.1 = m)
    · simp only []
      rcases hx : m.mx with _ | mx
      · simp [hx, hmn]
      · have hmx0 : mx ≠ 0 := by rw [hx] at hmx; simpa using hmx
        rcases hn : m.mn with _ | mn
        · exact absurd hn hmn
        · simp only []
          split_ifs <;> simp [hx, hn, hmx0]
    · simp [hsy, hmx, hmn]

theorem render_none_aux : ∀ n : Nat,
    (∀ t : Term, tsizeT t < n → (renderF n t = none ↔ containsU t = true)) ∧
    (∀ ts : List Term, tsizeLT ts < n →
      (renderListF n ts = none ↔ containsUL ts = true)) := by
  intro n
  induction n with
  | zero =>
    constructor
    · intro t h
      have : 1 ≤ tsizeT t := by
        cases t <;> simp [tsizeT]
      omega
    · intro ts h; omega
  | succ n ih =>
    constructor
    · intro t ht
      match t with
      | .tcc cs ng =>
        simp only [renderF, containsU]
        rw [ccRegex_none_iff]
        simp [List.isEmpty_iff]
      | .tmult x μ =>
        have hx : tsizeT x < n := by simp [tsizeT] at ht; omega
        simp only [renderF, containsU]
        have hxi := (ih.1 x hx)
        match hr : renderF n x with
        | none =>
          have hcx : containsU x = true := hxi.mp hr
          match x with
          | .tcc a b => simp only [hr, hcx]; simp
          | .tmult a b => simp only [hr, hcx]; simp
          | .tconc a => simp only [hr, hcx]; simp
          | .tpat a => simp only [hr, Option.map_none', hcx]; simp
        | some s =>
          have hcx : containsU x = false := by
            rw [← Bool.not_eq_true]
            intro hcc
            have hn := hxi.mpr hcc
            rw [hr] at hn
            cases hn
          have step2 : ∀ out : String,
              (match mpRegex μ with
               | none => none
               | some suffix =>
                 match μ.mn, μ.mx with
                 | some mn, some mx =>
                   if mn = mx ∧ out.length * mn ≤ out.length + suffix.length then
                     some (out ++ repeatStr (mn - 1) out)
                   else some (out ++ suffix)
                 | _, _ => some (out ++ suffix) : Option String) = none ↔
              (μ.mx = some 0 ∨ μ.mn = none) := by
            intro out
            match hm : mpRegex μ with
            | none =>
              simp only []
              rw [← mpRegex_none_iff]
              simp [hm]
            | some suffix =>
              have : ¬(μ.mx = some 0 ∨ μ.mn = none) := by
                rw [← mpRegex_none_iff, hm]
                simp
              simp only [this, iff_false]
              match μ.mn, μ.mx with
              | some mn, some mx =>
                simp only []
                split_ifs <;> simp
              | some mn, none => simp
              | none, some mx => simp
              | none, none => simp
          match x with
          | .tcc a b => simp only [hr, hcx, step2]; simp
          | .tmult a b => simp only [hr, hcx, step2]; simp
          | .tconc a => simp only [hr, hcx, step2]; simp
          | .tpat a => simp only [hr, Option.map_some', hcx, step2]; simp
      | .tconc ms =>
        have hms : tsizeLT ms < n := by simp [tsizeT] at ht; omega
        simp only [renderF, containsU]
        rw [← ih.2 ms hms]
        cases renderListF n ms <;> simp
      | .tpat cs =>
        have hcs : tsizeLT cs < n := by simp [tsizeT] at ht; omega
        simp only [renderF, containsU]
        rcases cs with _ | ⟨c, cs'⟩
        · simp [renderListF]
        · rw [if_neg (by simp)]
          simp only [List.isEmpty_cons, Bool.false_or]
          rw [← ih.2 (c :: cs') hcs]
          cases renderListF n (c :: cs') <;> simp
    · intro ts hts
      match ts with
      | [] => simp [renderListF, containsUL]
      | t :: ts' =>
        have ht : tsizeT t < n := by simp [tsizeLT] at hts; omega
        have hts' : tsizeLT ts' < n := by simp [tsizeLT] at hts; omega
        simp only [renderListF, containsUL]
        rw [Bool.or_eq_true, ← ih.1 t ht, ← ih.2 ts' hts']
        cases renderF n t <;> cases renderListF n ts' <;> simp

/-- C4: `regex()` raises the not-renderable error exactly when the term is
or contains an empty non-negated charclass, a multiplier with `max = 0` or
`min = ∞`, or an empty pattern; every other term renders to a string. -/
theorem render_fails_iff_unprintable (t : Term) :
    render t = none ↔ containsU t = true :=
  (render_none_aux (tsizeT t + 1)).1 t (Nat.lt_succ_self _)

theorem renderF_irrel : ∀ n : Nat, ∀ m : Nat,
    (∀ t, tsizeT t < n → tsizeT t < m → renderF n t = renderF m t) ∧
    (∀ ts, tsizeLT ts < n → tsizeLT ts < m →
      renderListF n ts = renderListF m ts) := by
  intro n
  induction n with
  | zero =>
    intro m
    constructor
    · intro t h _
      have : 1 ≤ tsizeT t := by cases t <;> simp [tsizeT]
      omega
    · intro ts h _; omega
  | succ n ih =>
    intro m
    match m with
    | 0 =>
      constructor
      · intro t _ h
        have : 1 ≤ tsizeT t := by cases t <;> simp [tsizeT]
        omega
      · intro ts _ h; omega
    | m' + 1 =>
      constructor
      · intro t h1 h2
        match t with
        | .tcc cs ng => simp [renderF]
        | .tmult x μ =>
          have hb1 : tsizeT x < n := by simp [tsizeT] at h1; omega
          have hb2 : tsizeT x < m' := by simp [tsizeT] at h2; omega
          simp only [renderF]
          rw [(ih m').1 x hb1 hb2]
        | .tconc ms =>
          have hb1 : tsizeLT ms < n := by simp [tsizeT] at h1; omega
          have hb2 : tsizeLT ms < m' := by simp [tsizeT] at h2; omega
          simp only [renderF]
          rw [(ih m').2 ms hb1 hb2]
        | .tpat cs =>
          have hb1 : tsizeLT cs < n := by simp [tsizeT] at h1; omega
          have hb2 : tsizeLT cs < m' := by simp [tsizeT] at h2; omega
          simp only [renderF]
          rw [(ih m').2 cs hb1 hb2]
      · intro ts h1 h2
        match ts with
        | [] => simp [renderListF]
        | t :: ts' =>
          have hb1 : tsizeT t < n := by simp [tsizeLT] at h1; omega
          have hb2 : tsizeT t < m' := by simp [tsizeLT] at h2; omega
          have hc1 : tsizeLT ts' < n := by simp [tsizeLT] at h1; omega
          have hc2 : tsizeLT ts' < m' := by simp [tsizeLT] at h2; omega
          simp only [renderListF]
          rw [(ih m').1 t hb1 hb2, (ih m').2 ts' hc1 hc2]

/-- C9: the rendering of a `mult` follows the spec's rule: for
`min = max`, the repeated-literal and braced forms are compared by rendered
length with ties to the repeated-literal form; otherwise the rendered
multiplicand (parenthesized when a pattern) is followed by the multiplier's
textual form. -/
theorem mult_regex_matches_spec (x : Term) (μ : Mplier) :
    render (.tmult x μ) = multRenderSpec x μ := by
  have hstep : render (.tmult x μ) =
      (match
        (match x with
         | .tpat _ => (render x).map (fun s => "(" ++ s ++ ")")
         | _ => render x) with
      | none => none
      | some out =>
        match mpRegex μ with
        | none => none
        | some suffix =>
          match μ.mn, μ.mx with
          | some mn, some mx =>
            if mn = mx ∧ out.length * mn ≤ out.length + suffix.length then
              some (out ++ repeatStr (mn - 1) out)
            else some (out ++ suffix)
          | _, _ => some (out ++ suffix)) := by
    show renderF (tsizeT (Term.tmult x μ) + 1) (.tmult x μ) = _
    simp only [renderF]
    rw [(renderF_irrel (tsizeT (Term.tmult x μ)) (tsizeT x + 1)).1 x
      (by simp [tsizeT]) (Nat.lt_succ_self _)]
    rfl
  rw [hstep]
  unfold multRenderSpec
  match hb : (match x with
              | .tpat _ => (render x).map (fun s => "(" ++ s ++ ")")
              | _ => render x) with
  | none => rfl
  | some out =>
    match hm : mpRegex μ with
    | none => rfl
    | some suffix =>
      simp only []
      have hnot : ¬(μ.mx = some 0 ∨ μ.mn = none) := by
        rw [← mpRegex_none_iff, hm]
        simp
      match hmn : μ.mn, hmx : μ.mx with
      | some mn, some mx =>
        simp only []
        by_cases he : mn = mx
        · subst he
          have hmn0 : mn ≠ 0 := by
            intro hz
            exact hnot (Or.inl (by rw [hmx, hz]))
          by_cases hlen : out.length * mn ≤ out.length + suffix.length
          · rw [if_pos ⟨rfl, hlen⟩, if_pos rfl, if_pos hlen]
            match mn, hmn0 with
            | k + 1, _ => simp [repeatStr]
          · rw [if_neg (by intro hc; exact hlen hc.2), if_pos rfl, if_neg hlen]
        · rw [if_neg (by intro hc; exact he hc.1), if_neg he]
      | some mn, none => rfl
      | none, some mx => rfl
      | none, none => rfl

/-- C10: `parse("[]")` succeeds — the bracket interior may be empty — and
returns the pattern of one conc of one mult whose multiplicand is the empty
charclass; rendering that parsed term raises the not-renderable error, so a
successfully parsed input need not be renderable. -/
theorem parse_empty_class_unrenderable :
    parseT "[]" = some (Term.tpat [.tconc [.tmult (.tcc [] false) oneM]]) ∧
    render (Term.tpat [.tconc [.tmult (.tcc [] false) oneM]]) = none := by
  constructor
  · rfl
  · have h : tsizeT (Term.tpat [.tconc [.tmult (.tcc [] false) oneM]]) = 6 := by
      simp [tsizeT, tsizeLT]
    show renderF _ _ = none
    rw [h]
    rfl

/-- C5: the coercion at the top of `pattern.__and__` wraps the *class
object* `conc` instead of the operand value, so `pattern(conc)` raises the
construction error for every conc operand instead of bulking the value up
and proceeding to the FSM intersection. -/
theorem pattern_and_conc_raises (ms : List Term) :
    patternAndCoerce (.term (.tconc ms)) =
      .error "Can't put a non-conc in a pattern" := rfl
